import Mathlib

/-!
Verification of the claude_history parser (src/backend/claude_history.py).

This file gives a shallow embedding of the module's data model and
operations, translated definition-by-definition from the Python source:

* decoded JSON records are modelled by the `Json` type (objects keep their
  field order; Python dict equality on decoded records coincides with
  structural equality here because decoded objects have distinct keys);
* Python `datetime` values are modelled abstractly as natural numbers
  (`Timestamp`); `datetime.now()` and `datetime.fromisoformat` are passed
  in as parameters (`now` and `fromiso`) since they are external effects;
* Python strings are modelled by `String`, and the string operations the
  source uses (`strip`, `startswith`, `in`, `join`, `replace`) are defined
  over the character list, mirroring Python's code-point semantics;
* duck-typed payload fields keep the decoded `Json` value; fields that the
  source only ever uses in string context are coerced with `pyStr` (a
  rendering of Python's `str()`); on a non-string value Python would raise
  at first use, so the coercion is only exercised by inputs the source
  itself cannot process.
-/

namespace ClaudeHistory

/- A decoded JSON value (the result of `json.loads` on one history line).
`JArr`/`JObj` are the array/object spines; object field order is kept. -/
mutual
inductive Json where
  | null
  | bool (b : Bool)
  | num (n : Int)
  | str (s : String)
  | arr (xs : JArr)
  | obj (fields : JObj)

inductive JArr where
  | nil
  | cons (hd : Json) (tl : JArr)

inductive JObj where
  | nil
  | cons (key : String) (val : Json) (tl : JObj)
end

mutual
def Json.decEq : (a b : Json) → Decidable (a = b)
  | .null, .null => isTrue rfl
  | .bool a, .bool b =>
    match decEq a b with
    | isTrue h => isTrue (by rw [h])
    | isFalse h => isFalse (by intro k; injection k; contradiction)
  | .num a, .num b =>
    match decEq a b with
    | isTrue h => isTrue (by rw [h])
    | isFalse h => isFalse (by intro k; injection k; contradiction)
  | .str a, .str b =>
    match decEq a b with
    | isTrue h => isTrue (by rw [h])
    | isFalse h => isFalse (by intro k; injection k; contradiction)
  | .arr a, .arr b =>
    match JArr.decEq a b with
    | isTrue h => isTrue (by rw [h])
    | isFalse h => isFalse (by intro k; injection k; contradiction)
  | .obj a, .obj b =>
    match JObj.decEq a b with
    | isTrue h => isTrue (by rw [h])
    | isFalse h => isFalse (by intro k; injection k; contradiction)
  | .null, .bool _ => isFalse (by intro k; exact Json.noConfusion k)
  | .null, .num _ => isFalse (by intro k; exact Json.noConfusion k)
  | .null, .str _ => isFalse (by intro k; exact Json.noConfusion k)
  | .null, .arr _ => isFalse (by intro k; exact Json.noConfusion k)
  | .null, .obj _ => isFalse (by intro k; exact Json.noConfusion k)
  | .bool _, .null => isFalse (by intro k; exact Json.noConfusion k)
  | .bool _, .num _ => isFalse (by intro k; exact Json.noConfusion k)
  | .bool _, .str _ => isFalse (by intro k; exact Json.noConfusion k)
  | .bool _, .arr _ => isFalse (by intro k; exact Json.noConfusion k)
  | .bool _, .obj _ => isFalse (by intro k; exact Json.noConfusion k)
  | .num _, .null => isFalse (by intro k; exact Json.noConfusion k)
  | .num _, .bool _ => isFalse (by intro k; exact Json.noConfusion k)
  | .num _, .str _ => isFalse (by intro k; exact Json.noConfusion k)
  | .num _, .arr _ => isFalse (by intro k; exact Json.noConfusion k)
  | .num _, .obj _ => isFalse (by intro k; exact Json.noConfusion k)
  | .str _, .null => isFalse (by intro k; exact Json.noConfusion k)
  | .str _, .bool _ => isFalse (by intro k; exact Json.noConfusion k)
  | .str _, .num _ => isFalse (by intro k; exact Json.noConfusion k)
  | .str _, .arr _ => isFalse (by intro k; exact Json.noConfusion k)
  | .str _, .obj _ => isFalse (by intro k; exact Json.noConfusion k)
  | .arr _, .null => isFalse (by intro k; exact Json.noConfusion k)
  | .arr _, .bool _ => isFalse (by intro k; exact Json.noConfusion k)
  | .arr _, .num _ => isFalse (by intro k; exact Json.noConfusion k)
  | .arr _, .str _ => isFalse (by intro k; exact Json.noConfusion k)
  | .arr _, .obj _ => isFalse (by intro k; exact Json.noConfusion k)
  | .obj _, .null => isFalse (by intro k; exact Json.noConfusion k)
  | .obj _, .bool _ => isFalse (by intro k; exact Json.noConfusion k)
  | .obj _, .num _ => isFalse (by intro k; exact Json.noConfusion k)
  | .obj _, .str _ => isFalse (by intro k; exact Json.noConfusion k)
  | .obj _, .arr _ => isFalse (by intro k; exact Json.noConfusion k)

def JArr.decEq : (a b : JArr) → Decidable (a = b)
  | .nil, .nil => isTrue rfl
  | .nil, .cons _ _ => isFalse (by intro k; exact JArr.noConfusion k)
  | .cons _ _, .nil => isFalse (by intro k; exact JArr.noConfusion k)
  | .cons x xs, .cons y ys =>
    match Json.decEq x y, JArr.decEq xs ys with
    | isTrue h1, isTrue h2 => isTrue (by rw [h1, h2])
    | isFalse h1, _ => isFalse (by intro k; injection k; contradiction)
    | _, isFalse h2 => isFalse (by intro k; injection k; contradiction)

def JObj.decEq : (a b : JObj) → Decidable (a = b)
  | .nil, .nil => isTrue rfl
  | .nil, .cons _ _ _ => isFalse (by intro k; exact JObj.noConfusion k)
  | .cons _ _ _, .nil => isFalse (by intro k; exact JObj.noConfusion k)
  | .cons k1 v1 xs, .cons k2 v2 ys =>
    match decEq k1 k2, Json.decEq v1 v2, JObj.decEq xs ys with
    | isTrue h0, isTrue h1, isTrue h2 => isTrue (by rw [h0, h1, h2])
    | isFalse h0, _, _ => isFalse (by intro k; injection k; contradiction)
    | _, isFalse h1, _ => isFalse (by intro k; injection k; contradiction)
    | _, _, isFalse h2 => isFalse (by intro k; injection k; contradiction)
end

instance : DecidableEq Json := Json.decEq

instance : DecidableEq JArr := JArr.decEq

instance : DecidableEq JObj := JObj.decEq

def JArr.toList : JArr → List Json
  | .nil => []
  | .cons x xs => x :: xs.toList

def JArr.ofList : List Json → JArr
  | [] => .nil
  | x :: xs => .cons x (JArr.ofList xs)

def JObj.ofList : List (String × Json) → JObj
  | [] => .nil
  | (k, v) :: xs => .cons k v (JObj.ofList xs)

/-- `d[key]` lookup on a decoded object: `some v` iff the key is present
(`none` both for a missing key and for a non-object value, where Python
`d.get` would raise before the call sites we model could be reached). -/
def jsonGet (d : Json) (key : String) : Option Json :=
  match d with
  | .obj fields => go fields
  | _ => none
where
  go : JObj → Option Json
    | .nil => none
    | .cons k v rest => if k = key then some v else go rest

/-- Python truthiness of a decoded JSON value (`bool(v)`). -/
def jsonTruthy : Json → Bool
  | .null => false
  | .bool b => b
  | .num n => n ≠ 0
  | .str s => s ≠ ""
  | .arr .nil => false
  | .arr (.cons _ _) => true
  | .obj .nil => false
  | .obj (.cons _ _ _) => true

/-! ### Python string operations, over the code-point list -/

/-- Default str.strip() whitespace characters. -/
def pySpace (c : Char) : Bool :=
  c = ' ' || c = '\t' || c = '\n' || c = '\x0d' || c = '\x0b' || c = '\x0c'

/-- `s.strip()`. -/
def pyStrip (s : String) : String :=
  String.mk (((s.data.dropWhile pySpace).reverse.dropWhile pySpace).reverse)

/-- `s.startswith(pre)`. -/
def pyStartsWith (s pre : String) : Bool :=
  pre.data.isPrefixOf s.data

/-- `sub in s` (substring containment). -/
def pyContains (s sub : String) : Bool :=
  s.data.tails.any (fun t => sub.data.isPrefixOf t)

/-- `sep.join(parts)`. -/
def pyJoin (sep : String) (parts : List String) : String :=
  String.mk (List.intercalate sep.data (parts.map String.data))

/-- `"".join(parts)`. -/
def pyConcat (parts : List String) : String :=
  String.mk (parts.map String.data).flatten

/-- `ts.replace("Z", "+00:00")`: every occurrence of the single character
`Z` is replaced (in an ISO-8601 timestamp only a trailing one occurs). -/
def pyReplaceZ (s : String) : String :=
  String.mk (s.data.flatMap (fun c => if c = 'Z' then "+00:00".data else [c]))

def pyQuote : Char := Char.ofNat 39

/- Rendering of Python `repr` on decoded JSON values, used only by the
fallback paths of the source (`TextContent(text=str(d))`).  Dicts and
lists render with single-quoted strings as Python does; escaping
subtleties inside strings are not modelled (no claim depends on them). -/
mutual
def pyRepr : Json → String
  | .null => "None"
  | .bool b => if b then "True" else "False"
  | .num n => toString n
  | .str s => String.mk (pyQuote :: s.data ++ [pyQuote])
  | .arr xs => "[" ++ pyReprArr xs ++ "]"
  | .obj fs => "\x7b" ++ pyReprObj fs ++ "\x7d"

def pyReprArr : JArr → String
  | .nil => ""
  | .cons x .nil => pyRepr x
  | .cons x (.cons y tl) => pyRepr x ++ ", " ++ pyReprArr (.cons y tl)

def pyReprObj : JObj → String
  | .nil => ""
  | .cons k v .nil => pyRepr (.str k) ++ ": " ++ pyRepr v
  | .cons k v (.cons k2 v2 tl) =>
    pyRepr (.str k) ++ ": " ++ pyRepr v ++ ", " ++ pyReprObj (.cons k2 v2 tl)
end

/-- Python `str(v)` of a decoded JSON value. -/
def pyStr : Json → String
  | .str s => s
  | v => pyRepr v

/-- JSON escape of one character (quotes, backslash and the common control
characters; `\u` escapes for other code points are not modelled). -/
def jsonEscape (c : Char) : List Char :=
  if c = '"' then ['\\', '"']
  else if c = '\\' then ['\\', '\\']
  else if c = '\n' then ['\\', 'n']
  else if c = '\t' then ['\\', 't']
  else if c = '\x0d' then ['\\', 'r']
  else [c]

/- `json.dumps(v)` with the default separators, used by the source to
render a structured tool result as text. -/
mutual
def Json.dumps : Json → String
  | .null => "null"
  | .bool b => if b then "true" else "false"
  | .num n => toString n
  | .str s => String.mk ('"' :: s.data.flatMap jsonEscape ++ ['"'])
  | .arr xs => "[" ++ JArr.dumps xs ++ "]"
  | .obj fs => "\x7b" ++ JObj.dumps fs ++ "\x7d"

def JArr.dumps : JArr → String
  | .nil => ""
  | .cons x .nil => Json.dumps x
  | .cons x (.cons y tl) => Json.dumps x ++ ", " ++ JArr.dumps (.cons y tl)

def JObj.dumps : JObj → String
  | .nil => ""
  | .cons k v .nil => Json.dumps (.str k) ++ ": " ++ Json.dumps v
  | .cons k v (.cons k2 v2 tl) =>
    Json.dumps (.str k) ++ ": " ++ Json.dumps v ++ ", " ++ JObj.dumps (.cons k2 v2 tl)
end

/-- `d.get(key, default)` where the call site uses the value as a string:
a present string is returned as-is, an absent key gives the default, and a
present non-string value is rendered with `pyStr` (Python would keep the
raw value and raise at its first string use; no such record produces an
entry, see the module header). -/
def jsonGetStr (d : Json) (key : String) (dflt : String) : String :=
  match jsonGet d key with
  | some (.str s) => s
  | some v => pyStr v
  | none => dflt

/-- `d.get(key, default)` where the call site uses the value as a boolean
flag (coerced by truthiness). -/
def jsonGetFlag (d : Json) (key : String) (dflt : Bool) : Bool :=
  match jsonGet d key with
  | some v => jsonTruthy v
  | none => dflt

/-- Python `datetime` values, modelled abstractly. -/
abbrev Timestamp := Nat

/-! ### Content blocks -/

/-- `ContentBlock` and its four concrete classes `TextContent`,
`ThinkingContent`, `ToolUseContent`, `ToolResultContent`. -/
inductive ContentBlock where
  | text (txt : String)
  | thinking (thk : String) (signature : Option String)
  | toolUse (id : String) (name : String) (input : Json)
  | toolResult (tool_use_id : String) (content : Json) (is_error : Bool)
deriving DecidableEq

/-- `TextContent.from_dict`. -/
def TextContent.from_dict (d : Json) : ContentBlock :=
  .text (jsonGetStr d "text" "")

/-- `ThinkingContent.from_dict`; a JSON `null` signature is Python `None`,
i.e. the same as an absent one. -/
def ThinkingContent.from_dict (d : Json) : ContentBlock :=
  .thinking (jsonGetStr d "thinking" "")
    (match jsonGet d "signature" with
     | some (.str s) => some s
     | some .null => none
     | some v => some (pyStr v)
     | none => none)

/-- `ToolUseContent.from_dict`. -/
def ToolUseContent.from_dict (d : Json) : ContentBlock :=
  .toolUse (jsonGetStr d "id" "") (jsonGetStr d "name" "")
    ((jsonGet d "input").getD (.obj .nil))

/-- `ToolResultContent.from_dict`; `content` keeps the raw decoded value
(`str | list` in the source), `is_error` is the decoded flag. -/
def ToolResultContent.from_dict (d : Json) : ContentBlock :=
  .toolResult (jsonGetStr d "tool_use_id" "")
    ((jsonGet d "content").getD (.str ""))
    (jsonGetFlag d "is_error" false)

/-- `ContentBlock.to_dict` of each concrete class. -/
def ContentBlock.to_dict : ContentBlock → Json
  | .text t => .obj (JObj.ofList [("type", .str "text"), ("text", .str t)])
  | .thinking t sig =>
    .obj (JObj.ofList ([("type", .str "thinking"), ("thinking", .str t)] ++
      (match sig with | some s => [("signature", Json.str s)] | none => [])))
  | .toolUse i n inp =>
    .obj (JObj.ofList [("type", .str "tool_use"), ("id", .str i), ("name", .str n),
      ("input", inp)])
  | .toolResult tid c err =>
    .obj (JObj.ofList ([("type", .str "tool_result"), ("tool_use_id", .str tid),
      ("content", c)] ++ (if err then [("is_error", Json.bool err)] else [])))

/-- `parse_content_block`: dispatch a block record on its `type`
discriminator; anything unrecognized degrades to a Text block holding the
`str()` rendering of the record. -/
def parse_content_block (d : Json) : ContentBlock :=
  match jsonGet d "type" with
  | some (.str "text") => TextContent.from_dict d
  | some (.str "thinking") => ThinkingContent.from_dict d
  | some (.str "tool_use") => ToolUseContent.from_dict d
  | some (.str "tool_result") => ToolResultContent.from_dict d
  | _ => .text (pyStr d)

/-- `parse_content`: a plain string becomes a single Text block; a list is
parsed item-wise (non-dict items degrade to Text); anything else degrades
to a single Text block of its `str()` rendering. -/
def parse_content (content : Json) : List ContentBlock :=
  match content with
  | .str s => [.text s]
  | .arr xs => xs.toList.map (fun item =>
      match item with
      | .obj _ => parse_content_block item
      | _ => .text (pyStr item))
  | other => [.text (pyStr other)]

/-- `serialize_content(blocks, original_content)`: when the original
content was a plain string the result is a plain string again (the single
Text block's text, else the concatenation of the Text blocks' texts);
otherwise it is the list of block records. -/
def serialize_content (blocks : List ContentBlock) (original_content : Option Json) : Json :=
  match original_content with
  | some (.str _) =>
    match blocks with
    | [.text t] => .str t
    | _ => .str (pyConcat (blocks.filterMap (fun b =>
        match b with | .text t => some t | _ => none)))
  | _ => .arr (JArr.ofList (blocks.map ContentBlock.to_dict))

/-! ### Messages -/

/-- `Usage`; fields keep the decoded values, `raw` is `_raw`. -/
structure Usage where
  input_tokens : Json := .num 0
  output_tokens : Json := .num 0
  cache_creation_input_tokens : Json := .num 0
  cache_read_input_tokens : Json := .num 0
  service_tier : Json := .str ""
  raw : Option Json := none
deriving DecidableEq

/-- `Usage.from_dict` (argument `None`, i.e. an absent or null `usage`
field, gives the all-default `Usage()`). -/
def Usage.from_dict : Option Json → Usage
  | some d =>
    match d with
    | .obj _ =>
      { input_tokens := (jsonGet d "input_tokens").getD (.num 0)
        output_tokens := (jsonGet d "output_tokens").getD (.num 0)
        cache_creation_input_tokens := (jsonGet d "cache_creation_input_tokens").getD (.num 0)
        cache_read_input_tokens := (jsonGet d "cache_read_input_tokens").getD (.num 0)
        service_tier := (jsonGet d "service_tier").getD (.str "")
        raw := some d }
    | .null => {}
    | _ => {}
  | none => {}

/-- `Usage.to_dict`: the retained raw mapping when present, otherwise a
reconstruction from the typed fields. -/
def Usage.to_dict (u : Usage) : Json :=
  match u.raw with
  | some r => r
  | none =>
    .obj (JObj.ofList ([("input_tokens", u.input_tokens),
      ("output_tokens", u.output_tokens),
      ("cache_creation_input_tokens", u.cache_creation_input_tokens),
      ("cache_read_input_tokens", u.cache_read_input_tokens)] ++
      (if jsonTruthy u.service_tier then [("service_tier", u.service_tier)] else [])))

/-- `UserMessage`; `raw` is `_raw`. -/
structure UserMessage where
  role : String
  content : List ContentBlock
  raw : Option Json := none
deriving DecidableEq

/-- `UserMessage.from_dict`. -/
def UserMessage.from_dict (d : Json) : UserMessage :=
  { role := jsonGetStr d "role" "user"
    content := parse_content ((jsonGet d "content").getD (.str ""))
    raw := some d }

/-- `UserMessage.to_dict`. -/
def UserMessage.to_dict (m : UserMessage) : Json :=
  match m.raw with
  | some r => r
  | none => .obj (JObj.ofList [("role", .str m.role),
      ("content", serialize_content m.content none)])

/-- `AssistantMessage`. -/
structure AssistantMessage where
  role : String
  content : List ContentBlock
  model : String := ""
  message_id : String := ""
  stop_reason : Json := .null
  stop_sequence : Json := .null
  usage : Usage := {}
  raw : Option Json := none
deriving DecidableEq

/-- `AssistantMessage.from_dict` (`stop_reason`/`stop_sequence` keep the
decoded value, with Python `None` for an absent key modelled as null). -/
def AssistantMessage.from_dict (d : Json) : AssistantMessage :=
  { role := jsonGetStr d "role" "assistant"
    content := parse_content ((jsonGet d "content").getD (.arr .nil))
    model := jsonGetStr d "model" ""
    message_id := jsonGetStr d "id" ""
    stop_reason := (jsonGet d "stop_reason").getD .null
    stop_sequence := (jsonGet d "stop_sequence").getD .null
    usage := Usage.from_dict (jsonGet d "usage")
    raw := some d }

/-- `AssistantMessage.to_dict`. -/
def AssistantMessage.to_dict (m : AssistantMessage) : Json :=
  match m.raw with
  | some r => r
  | none =>
    .obj (JObj.ofList ([("role", .str m.role),
      ("content", serialize_content m.content none)] ++
      (if m.model ≠ "" then [("model", Json.str m.model)] else []) ++
      (if m.message_id ≠ "" then [("id", Json.str m.message_id)] else []) ++
      [("type", .str "message"), ("stop_reason", m.stop_reason),
       ("stop_sequence", m.stop_sequence), ("usage", m.usage.to_dict)]))

/-! ### Entries -/

/-- The per-kind payload of an `Entry` subclass (`UserEntry`,
`AssistantEntry`, `SystemEntry`, `FileHistorySnapshotEntry`,
`SummaryEntry`, `QueueOperationEntry`, and the inline `UnknownEntry`). -/
inductive EntryData where
  | user (message : UserMessage) (user_type : String)
  | assistant (message : AssistantMessage) (request_id : String)
  | system (subtype : String) (content : String) (level : String) (is_meta : Bool)
  | fileHistorySnapshot (message_id : String) (snapshot : Json) (is_snapshot_update : Bool)
  | summary (summary : String) (leaf_uuid : String)
  | queueOperation (operation : String) (content : String)
  | unknown
deriving DecidableEq

/-- `Entry`: the common base-class fields plus the per-kind payload.
`uuid` keeps the decoded value (identity fields are plain strings in well
formed logs, but the source stores whatever was decoded). -/
structure Entry where
  uuid : Json
  timestamp : Timestamp
  entry_type : String
  raw : Json
  data : EntryData
deriving DecidableEq

/-- `Entry.to_dict`: always the retained original record — the round-trip
contract. -/
def Entry.to_dict (e : Entry) : Json := e.raw

/-- `Entry.parent_uuid` (the `parentUuid` field of the retained record;
Python `None` for an absent key is modelled as null, which is equally
falsy and not a dict key). -/
def Entry.parent_uuid (e : Entry) : Json :=
  (jsonGet e.raw "parentUuid").getD .null

/-- `Entry.session_id`. -/
def Entry.session_id (e : Entry) : Json :=
  (jsonGet e.raw "sessionId").getD .null

/-- `isinstance(e, (UserEntry, AssistantEntry))`. -/
def isUserOrAssistant (e : Entry) : Bool :=
  match e.data with
  | .user _ _ => true
  | .assistant _ _ => true
  | _ => false

/-- `_parse_timestamp`: empty string (or the falsy absent default) gives
the current time; otherwise `Z` is replaced by `+00:00` and the result
parsed, any parse failure again giving the current time.  `fromiso`
models `datetime.fromisoformat`, with `none` for a raised `ValueError`. -/
def _parse_timestamp (now : Timestamp) (fromiso : String → Option Timestamp)
    (ts : String) : Timestamp :=
  if ts = "" then now
  else
    match fromiso (pyReplaceZ ts) with
    | some d => d
    | none => now

/-- `UserEntry.from_dict`. -/
def UserEntry.from_dict (now : Timestamp) (fromiso : String → Option Timestamp)
    (d : Json) : Entry :=
  { uuid := (jsonGet d "uuid").getD (.str "")
    timestamp := _parse_timestamp now fromiso (jsonGetStr d "timestamp" "")
    entry_type := "user"
    raw := d
    data := .user (UserMessage.from_dict ((jsonGet d "message").getD (.obj .nil)))
      (jsonGetStr d "userType" "external") }

/-- `AssistantEntry.from_dict`. -/
def AssistantEntry.from_dict (now : Timestamp) (fromiso : String → Option Timestamp)
    (d : Json) : Entry :=
  { uuid := (jsonGet d "uuid").getD (.str "")
    timestamp := _parse_timestamp now fromiso (jsonGetStr d "timestamp" "")
    entry_type := "assistant"
    raw := d
    data := .assistant (AssistantMessage.from_dict ((jsonGet d "message").getD (.obj .nil)))
      (jsonGetStr d "requestId" "") }

/-- `SystemEntry.from_dict`. -/
def SystemEntry.from_dict (now : Timestamp) (fromiso : String → Option Timestamp)
    (d : Json) : Entry :=
  { uuid := (jsonGet d "uuid").getD (.str "")
    timestamp := _parse_timestamp now fromiso (jsonGetStr d "timestamp" "")
    entry_type := "system"
    raw := d
    data := .system (jsonGetStr d "subtype" "") (jsonGetStr d "content" "")
      (jsonGetStr d "level" "info") (jsonGetFlag d "isMeta" false) }

/-- `FileHistorySnapshotEntry.from_dict` (identity comes from `messageId`,
the timestamp from inside the snapshot). -/
def FileHistorySnapshotEntry.from_dict (now : Timestamp)
    (fromiso : String → Option Timestamp) (d : Json) : Entry :=
  { uuid := (jsonGet d "messageId").getD ((jsonGet d "uuid").getD (.str ""))
    timestamp := _parse_timestamp now fromiso
      (jsonGetStr ((jsonGet d "snapshot").getD (.obj .nil)) "timestamp" "")
    entry_type := "file-history-snapshot"
    raw := d
    data := .fileHistorySnapshot (jsonGetStr d "messageId" "")
      ((jsonGet d "snapshot").getD (.obj .nil)) (jsonGetFlag d "isSnapshotUpdate" false) }

/-- `SummaryEntry.from_dict` (summary entries carry no timestamp; the
source substitutes `datetime.now()`). -/
def SummaryEntry.from_dict (now : Timestamp) (d : Json) : Entry :=
  { uuid := (jsonGet d "leafUuid").getD (.str "")
    timestamp := now
    entry_type := "summary"
    raw := d
    data := .summary (jsonGetStr d "summary" "") (jsonGetStr d "leafUuid" "") }

/-- `QueueOperationEntry.from_dict` (no stable uuid; identity is empty). -/
def QueueOperationEntry.from_dict (now : Timestamp) (fromiso : String → Option Timestamp)
    (d : Json) : Entry :=
  { uuid := .str ""
    timestamp := _parse_timestamp now fromiso (jsonGetStr d "timestamp" "")
    entry_type := "queue-operation"
    raw := d
    data := .queueOperation (jsonGetStr d "operation" "") (jsonGetStr d "content" "") }

/-- `parse_entry`: dispatch on the decoded record's `type` discriminator;
anything unrecognized becomes the generic unknown entry, which still
retains the original record. -/
def parse_entry (now : Timestamp) (fromiso : String → Option Timestamp)
    (d : Json) : Entry :=
  let et : Json := (jsonGet d "type").getD (.str "")
  if et = .str "user" then UserEntry.from_dict now fromiso d
  else if et = .str "assistant" then AssistantEntry.from_dict now fromiso d
  else if et = .str "system" then SystemEntry.from_dict now fromiso d
  else if et = .str "file-history-snapshot" then FileHistorySnapshotEntry.from_dict now fromiso d
  else if et = .str "summary" then SummaryEntry.from_dict now d
  else if et = .str "queue-operation" then QueueOperationEntry.from_dict now fromiso d
  else
    { uuid := (jsonGet d "uuid").getD (.str "")
      timestamp := _parse_timestamp now fromiso (jsonGetStr d "timestamp" "")
      entry_type := (match et with | .str s => s | v => pyStr v)
      raw := d
      data := .unknown }

/-- Entry-level round trip: whatever the record, the parsed entry
re-encodes to the original record itself. -/
theorem to_dict_parse_entry (now : Timestamp) (fromiso : String → Option Timestamp)
    (d : Json) : (parse_entry now fromiso d).to_dict = d := by
  simp only [parse_entry, Entry.to_dict]
  repeat' split
  all_goals rfl

/-- C1: for every entry obtained by parsing a decoded JSON record — any of
the seven entry kinds, including Unknown — re-encoding the entry via
`Entry.to_dict` yields a value structurally equal to the original decoded
record (every `from_dict` retains the record and `to_dict` returns it). -/
theorem claim_C1_roundtrip (now : Timestamp) (fromiso : String → Option Timestamp)
    (d : Json) : (parse_entry now fromiso d).to_dict = d :=
  to_dict_parse_entry now fromiso d

/-! ### Actions and interactions -/

/-- `Action`: one step taken within an interaction
(`thinking`, `tool_use`, `text` or `auto_compact`). -/
structure Action where
  action_type : String
  timestamp : Option Timestamp := none
  thinking : Option String := none
  tool_name : Option String := none
  tool_id : Option String := none
  tool_input : Option Json := none
  tool_result : Option String := none
  is_error : Bool := false
  text : Option String := none
  summary : Option String := none
deriving DecidableEq

/-- `Interaction`: one user prompt and the assistant's response to it. -/
structure Interaction where
  id : String
  timestamp : Timestamp
  user_prompt : String
  actions : List Action := []
  final_response : Option String := none
  model : Option String := none
  cancel_reason : Option String := none
deriving DecidableEq

/-- `_is_local_command_message`. -/
def _is_local_command_message (text : String) : Bool :=
  pyStartsWith text "Caveat: The messages below were generated by the user while running local commands" ||
  pyContains text "<command-name>" || pyContains text "<command-message>" ||
  pyContains text "<local-command-stdout>" || pyContains text "<local-command-stderr>"

/-- `AUTO_COMPACT_PREFIX` (the fixed continuation marker). -/
def autoCompactMarker : String :=
  "This session is being continued from a previous conversation that ran out of context."

/-- `CANCELLATION_MESSAGES`. -/
def cancellationMessages : List String :=
  ["[Request interrupted by user for tool use]", "[Request interrupted by user]"]

/-- `_is_auto_compact_message`. -/
def _is_auto_compact_message (text : String) : Bool :=
  pyStartsWith (pyStrip text) autoCompactMarker

/-- `_is_cancellation_message`. -/
def _is_cancellation_message (text : String) : Bool :=
  (pyStrip text) ∈ cancellationMessages

/-- `_is_human_message`: a User entry with no ToolResult block whose
concatenated Text content is not a local-command echo, an auto-compact
continuation, or a cancellation message. -/
def _is_human_message (e : Entry) : Bool :=
  match e.data with
  | .user msg _ =>
    if msg.content.any (fun b => match b with | .toolResult _ _ _ => true | _ => false) then
      false
    else
      let text := pyConcat (msg.content.filterMap (fun b =>
        match b with | .text t => some t | _ => none))
      !_is_local_command_message text && !_is_auto_compact_message text &&
        !_is_cancellation_message text
  | _ => false

/-- `_get_text_content` (newline-joined Text blocks of a user entry). -/
def _get_text_content (e : Entry) : String :=
  match e.data with
  | .user msg _ =>
    pyJoin "\n" (msg.content.filterMap (fun b =>
      match b with | .text t => some t | _ => none))
  | _ => ""

/-- The body of the block loop of `_extract_actions_from_assistant`:
state is (actions, text parts, has_tool_use), all accumulated in order. -/
def extractBlockStep (ts : Timestamp) (st : List Action × List String × Bool)
    (b : ContentBlock) : List Action × List String × Bool :=
  match b with
  | .thinking thk _ =>
    (st.1 ++ [{ action_type := "thinking", timestamp := some ts, thinking := some thk }],
     st.2.1, st.2.2)
  | .toolUse i n inp =>
    (st.1 ++ [{ action_type := "tool_use", timestamp := some ts, tool_name := some n,
                tool_id := some i, tool_input := some inp }],
     st.2.1, true)
  | .text t =>
    if pyStartsWith t "\x7b\x27type\x27: \x27thinking\x27" ||
       pyStartsWith t "\x7b\"type\": \"thinking\"" then st
    else (st.1, st.2.1 ++ [t], st.2.2)
  | .toolResult _ _ _ => st

/-- `_extract_actions_from_assistant`: walk the assistant message's blocks
in order; thinking and tool-use blocks become Actions, text blocks are
deferred (skipping stringified-thinking fallbacks); returns the actions,
the newline-joined deferred text (None when no part was collected), and
whether a tool use was seen. -/
def _extract_actions_from_assistant (e : Entry) : List Action × Option String × Bool :=
  match e.data with
  | .assistant msg _ =>
    let st := msg.content.foldl (extractBlockStep e.timestamp) ([], [], false)
    (st.1, (if st.2.1 ≠ [] then some (pyJoin "\n" st.2.1) else none), st.2.2)
  | _ => ([], none, false)

/-- `dict.setdefault`-style upsert used to model the Python dict built by
`_extract_tool_results`: inserting an existing key keeps its position and
replaces its value, a new key is appended. -/
def upsert {α : Type} (m : List (String × α)) (k : String) (v : α) : List (String × α) :=
  if m.any (fun p => p.1 = k) then
    m.map (fun p => if p.1 = k then (k, v) else p)
  else m ++ [(k, v)]

/-- `_extract_tool_results`: the mapping `tool_use_id ->
(result content, is_error)` over the ToolResult blocks of a user entry
(string content kept, structured content rendered with `json.dumps`). -/
def _extract_tool_results (blocks : List ContentBlock) : List (String × String × Bool) :=
  blocks.foldl (fun acc b =>
    match b with
    | .toolResult tid c err =>
      upsert acc tid ((match c with | .str s => s | v => Json.dumps v), err)
    | _ => acc) []

/-- `_find_tool_use_action` followed by the in-place mutation of the found
Action in `build_interactions`: scan the action list from the front and
update the first `tool_use` Action whose `tool_id` equals the given id
with the result content and error flag; no match leaves the list
unchanged. -/
def applyToolResult : List Action → String → String → Bool → List Action
  | [], _, _, _ => []
  | a :: rest, tid, rc, err =>
    if a.action_type = "tool_use" ∧ a.tool_id = some tid then
      { a with tool_result := some rc, is_error := err } :: rest
    else a :: applyToolResult rest tid rc err

/-- The fold state of `build_interactions`: the flushed interactions, the
interaction being built (if any) and the sequential id counter. -/
structure BuildState where
  interactions : List Interaction
  current : Option Interaction
  counter : Nat
deriving DecidableEq

def buildInit : BuildState := ⟨[], none, 0⟩

/-- One step of the `build_interactions` loop on one entry. -/
def buildStep (st : BuildState) (e : Entry) : BuildState :=
  match e.data with
  | .system _ _ _ _ => st
  | .summary _ _ => st
  | _ =>
    if _is_human_message e then
      let flushed := match st.current with
        | some c => st.interactions ++ [c]
        | none => st.interactions
      let n := st.counter + 1
      { interactions := flushed
        current := some
          { id := "interaction-" ++ toString n
            timestamp := e.timestamp
            user_prompt := _get_text_content e
            actions := []
            final_response := none
            model := none
            cancel_reason := none }
        counter := n }
    else
      match e.data with
      | .user msg _ =>
        match st.current with
        | none => st
        | some cur =>
          let text := _get_text_content e
          if _is_cancellation_message text then
            { st with current := some { cur with cancel_reason := some (pyStrip text) } }
          else if _is_auto_compact_message text then
            { st with current := some { cur with actions := cur.actions ++
                [{ action_type := "auto_compact", timestamp := some e.timestamp,
                   summary := some text }] } }
          else
            let newActs := (_extract_tool_results msg.content).foldl
              (fun acts r => applyToolResult acts r.1 r.2.1 r.2.2) cur.actions
            { st with current := some { cur with actions := newActs } }
      | .assistant msg _ =>
        match st.current with
        | none => st
        | some cur =>
          let ext := _extract_actions_from_assistant e
          let cur1 := { cur with actions := cur.actions ++ ext.1 }
          let cur2 := if cur1.model.isNone ∧ msg.model ≠ "" then
              { cur1 with model := some msg.model } else cur1
          let t := (ext.2.1).getD ""
          let cur3 := if t ≠ "" then
              { cur2 with
                actions := cur2.actions ++
                  [{ action_type := "text", timestamp := some e.timestamp, text := some t }]
                final_response := some
                  (if (cur2.final_response.getD "") ≠ "" then
                     (cur2.final_response.getD "") ++ "\n" ++ t
                   else t) }
            else cur2
          { st with current := some cur3 }
      | _ => st

/-- `build_interactions`: fold the entry sequence through `buildStep` and
flush any still-active interaction at the end. -/
def build_interactions (entries : List Entry) : List Interaction :=
  let st := entries.foldl buildStep buildInit
  match st.current with
  | some c => st.interactions ++ [c]
  | none => st.interactions

/-! ### Conversation-thread reconstruction (`Session.get_conversations`) -/

/- `uuid_to_entry[k] = v` on the model of a Python dict as an ordered
association list: assigning an existing key keeps its position and
replaces its value, a new key is appended. -/
def uuidMapInsert (m : List (Json × Entry)) (k : Json) (v : Entry) :
    List (Json × Entry) :=
  if m.any (fun p => p.1 = k) then m.map (fun p => if p.1 = k then (k, v) else p)
  else m ++ [(k, v)]

/-- The `uuid_to_entry` map: every entry with a truthy uuid, later
duplicates overwriting earlier ones. -/
def buildUuidMap (entries : List Entry) : List (Json × Entry) :=
  entries.foldl (fun m e => if jsonTruthy e.uuid then uuidMapInsert m e.uuid e else m) []

/-- Dict lookup (`m[k]` / `k in m`). -/
def uuidLookup (m : List (Json × Entry)) (k : Json) : Option Entry :=
  (m.find? (fun p => p.1 = k)).map (fun p => p.2)

/-- The root filter: no parent reference, or one that does not resolve
within this session. -/
def isRootEntry (m : List (Json × Entry)) (e : Entry) : Bool :=
  !jsonTruthy e.parent_uuid || (uuidLookup m e.parent_uuid).isNone

/-- `roots` of `get_conversations`. -/
def sessionRoots (entries : List Entry) (m : List (Json × Entry)) : List Entry :=
  entries.filter (isRootEntry m)

/-- The `children` mapping of `get_conversations`, as a function from a
uuid to the ordered child list: the entries (in original sequence order)
whose truthy, resolvable parent reference equals the given uuid. -/
def childrenOf (entries : List Entry) (m : List (Json × Entry)) (u : Json) : List Entry :=
  entries.filter (fun e =>
    jsonTruthy e.parent_uuid && (uuidLookup m e.parent_uuid).isSome &&
      (e.parent_uuid = u))

/-- The DFS stack loop of `get_conversations`.  The source keeps the stack
top at the end of a Python list and pushes `reversed(children)`, so the
children pop in forward order; here the stack top is the list head and the
children are prepended in order, which is the same discipline.  The loop
runs once per popped entry; the fuel bounds the number of iterations
(`get_conversations` passes `entries.length`, enough for every acyclic
session with distinct uuids — on a cyclic session the Python loop does not
terminate at all, and no claim concerns such sessions). -/
def dfsThread (cs : Json → List Entry) : Nat → List Entry → List Entry
  | _, [] => []
  | 0, _ :: _ => []
  | fuel + 1, e :: stack => e :: dfsThread cs fuel (cs e.uuid ++ stack)

/-- `Session.get_conversations` on the session's entry list: one DFS
thread per root of User or Assistant kind (non-empty threads only, as in
the source, where a thread always contains at least its root). -/
def get_conversations (entries : List Entry) : List (List Entry) :=
  let m := buildUuidMap entries
  let cs := childrenOf entries m
  let roots := sessionRoots entries m
  ((roots.filter isUserOrAssistant).map
    (fun r => dfsThread cs entries.length [r])).filter (fun t => !t.isEmpty)

/-! ### Round-trip verification (`verify_roundtrip`) -/

/-- One input line of a session file, as the source's per-line handling
classifies it: whitespace-only (skipped before decoding), malformed
(`json.loads` raises `JSONDecodeError`, the line is skipped), or decoded
to a record. -/
inductive Line where
  | blank
  | malformed
  | ok (d : Json)
deriving DecidableEq

/-- Whether a line decodes to a record. -/
def Line.isOk : Line → Bool
  | .ok _ => true
  | _ => false

/-- The mismatch collector of `verify_roundtrip`: walk the lines with
their 1-indexed numbers, recording the number of every line that decodes
to a record whose parsed entry re-encodes differently. -/
def roundtripMismatches (now : Timestamp) (fromiso : String → Option Timestamp) :
    Nat → List Line → List Nat
  | _, [] => []
  | n, .ok d :: rest =>
    if (parse_entry now fromiso d).to_dict ≠ d then
      n :: roundtripMismatches now fromiso (n + 1) rest
    else roundtripMismatches now fromiso (n + 1) rest
  | n, .blank :: rest => roundtripMismatches now fromiso (n + 1) rest
  | n, .malformed :: rest => roundtripMismatches now fromiso (n + 1) rest

/-- `verify_roundtrip`: the boolean verdict (`len(mismatched) == 0`)
together with the 1-indexed mismatching line numbers. -/
def verify_roundtrip (now : Timestamp) (fromiso : String → Option Timestamp)
    (lines : List Line) : Bool × List Nat :=
  let mismatched := roundtripMismatches now fromiso 1 lines
  (mismatched.length = 0, mismatched)

/-! ### Concrete records used by the example claims -/

def mkObj (l : List (String × Json)) : Json := .obj (JObj.ofList l)

def mkArr (l : List Json) : Json := .arr (JArr.ofList l)

/-- A `fromisoformat` stand-in for concrete examples (always fails, so
the parsed timestamp is the supplied current time). -/
def isoNone : String → Option Timestamp := fun _ => none

/-- "Fix the bug" (human user message). -/
def c3r1 : Json := mkObj [("type", .str "user"), ("uuid", .str "u1"),
  ("message", mkObj [("role", .str "user"), ("content", .str "Fix the bug")])]

/-- Assistant message with one ToolUse block (id t1, name run_tests). -/
def c3r2 : Json := mkObj [("type", .str "assistant"), ("uuid", .str "u2"),
  ("message", mkObj [("role", .str "assistant"),
    ("content", mkArr [mkObj [("type", .str "tool_use"), ("id", .str "t1"),
      ("name", .str "run_tests"), ("input", mkObj [])]])])]

/-- User message with one ToolResult block (t1, "2 failed", is_error). -/
def c3r3 : Json := mkObj [("type", .str "user"), ("uuid", .str "u3"),
  ("message", mkObj [("role", .str "user"),
    ("content", mkArr [mkObj [("type", .str "tool_result"),
      ("tool_use_id", .str "t1"), ("content", .str "2 failed"),
      ("is_error", .bool true)]])])]

/-- Assistant message with one Text block "Fixed, rerun". -/
def c3r4 : Json := mkObj [("type", .str "assistant"), ("uuid", .str "u4"),
  ("message", mkObj [("role", .str "assistant"),
    ("content", mkArr [mkObj [("type", .str "text"),
      ("text", .str "Fixed, rerun")]])])]

/-- The four-entry sequence of the interaction-segmentation example. -/
def c3entries : List Entry := [c3r1, c3r2, c3r3, c3r4].map (parse_entry 0 isoNone)

/-- C3: on the four-entry sequence — human "Fix the bug"; assistant with
ToolUse(t1, run_tests); user with ToolResult(t1, "2 failed", error);
assistant with Text "Fixed, rerun" — `build_interactions` returns exactly
one Interaction with the prompt, a completed tool_use Action followed by a
text Action, and final_response "Fixed, rerun". -/
theorem claim_C3_segmentation_example : build_interactions c3entries =
    [{ id := "interaction-1", timestamp := 0, user_prompt := "Fix the bug",
       actions := [
         { action_type := "tool_use", timestamp := some 0,
           tool_name := some "run_tests", tool_id := some "t1",
           tool_input := some (mkObj []), tool_result := some "2 failed",
           is_error := true },
         { action_type := "text", timestamp := some 0, text := some "Fixed, rerun" }],
       final_response := some "Fixed, rerun", model := none,
       cancel_reason := none }] := by decide

/-! ### C4: tool-result matching is first-match-wins -/

/-- C4: when a tool-result User entry is processed with an active
interaction, each ToolResult block updates the matching ToolUse Action
found by a linear scan of the interaction's action list from the front —
the first Action whose type is `tool_use` and whose `tool_id` equals the
result's `tool_use_id` receives the result content and error flag, and
every other Action (in particular a later duplicate with the same id) is
left untouched, so only the first match is ever completed.  (The spec's
"most-recently-matching" Action is, concretely, this first match in list
order, exactly as its own elaboration "linear scan, first match found
wins" says.) -/
theorem claim_C4_first_match_wins (l1 : List Action) (a : Action) (l2 : List Action)
    (tid rc : String) (err : Bool)
    (h1 : ∀ b ∈ l1, ¬(b.action_type = "tool_use" ∧ b.tool_id = some tid))
    (h2 : a.action_type = "tool_use") (h3 : a.tool_id = some tid) :
    applyToolResult (l1 ++ a :: l2) tid rc err =
      l1 ++ { a with tool_result := some rc, is_error := err } :: l2 := by
  induction l1 with
  | nil =>
    simp only [List.nil_append, applyToolResult]
    rw [if_pos ⟨h2, h3⟩]
  | cons b bs ih =>
    simp only [List.cons_append, applyToolResult, List.append_eq]
    rw [if_neg (h1 b (by simp))]
    rw [ih (fun x hx => h1 x (by simp [hx]))]

def c4text : Action := { action_type := "text", text := some "hi" }

def c4dup : Action :=
  { action_type := "tool_use", tool_id := some "t1", tool_name := some "run_tests" }

theorem claim_C4_witness :
    applyToolResult ([c4text] ++ c4dup :: [c4dup]) "t1" "2 failed" true =
      [c4text] ++ { c4dup with tool_result := some "2 failed", is_error := true } :: [c4dup] :=
  claim_C4_first_match_wins [c4text] c4dup [c4dup] "t1" "2 failed" true
    (by decide) (by decide) (by decide)

/-! ### C5: serialize_content preserves the original content shape -/

/-- C5: for every block list, if the original content was a plain string
then `serialize_content` returns a plain string — the single Text block's
text, which is also the concatenation of the Text blocks' texts (empty
when there is none) — never a wrapped one-element list; and if the
original content was not a string (including an absent original) it
returns the list-of-block-records form. -/
theorem claim_C5_serialize_shape (blocks : List ContentBlock) :
    (∀ s : String, serialize_content blocks (some (.str s)) =
      .str (pyConcat (blocks.filterMap (fun b =>
        match b with | .text t => some t | _ => none)))) ∧
    (∀ orig : Option Json, (∀ s : String, orig ≠ some (.str s)) →
      serialize_content blocks orig =
        .arr (JArr.ofList (blocks.map ContentBlock.to_dict))) := by
  constructor
  · intro s
    unfold serialize_content
    match blocks with
    | [.text t] =>
      simp only [List.filterMap]
      show Json.str t = .str (pyConcat [t])
      cases t with
      | mk l => simp [pyConcat]
    | [] => rfl
    | .thinking _ _ :: _ => rfl
    | .toolUse _ _ _ :: _ => rfl
    | .toolResult _ _ _ :: _ => rfl
    | .text _ :: _ :: _ => rfl
  · intro orig h
    match orig with
    | none => rfl
    | some .null => rfl
    | some (.bool _) => rfl
    | some (.num _) => rfl
    | some (.str s) => exact absurd rfl (h s)
    | some (.arr _) => rfl
    | some (.obj _) => rfl

theorem claim_C5_witness :
    (serialize_content [.text "a", .toolUse "i" "n" (mkObj [])] (some (.str "xy")) =
      .str "a") ∧
    (serialize_content [.text "a"] none =
      .arr (JArr.ofList [ContentBlock.to_dict (.text "a")])) :=
  ⟨((claim_C5_serialize_shape [.text "a", .toolUse "i" "n" (mkObj [])]).1 "xy").trans
      (by decide),
   (claim_C5_serialize_shape [.text "a"]).2 none (fun s h => Option.noConfusion h)⟩

/-! ### C7: timestamp decoding is total and recovers with the current time -/

/-- Characters unaffected by the replacement are kept. -/
theorem flatMap_noZ (l : List Char) (h : ∀ c ∈ l, c ≠ 'Z') :
    l.flatMap (fun c => if c = 'Z' then "+00:00".data else [c]) = l := by
  induction l with
  | nil => rfl
  | cons c cs ih =>
    simp only [List.flatMap_cons]
    rw [if_neg (h c (by simp)), ih (fun x hx => h x (by simp [hx]))]
    rfl

/-- C7: `_parse_timestamp` is a total function: a missing (empty)
timestamp or any parse failure yields the supplied current wall-clock
time, a successful parse yields the parsed value, and the parse is
attempted on the timestamp with any literal `Z` replaced by the explicit
UTC offset `+00:00` (so ISO-8601 with a trailing `Z` is accepted whenever
`fromisoformat` accepts the normalized form).  No other outcome exists —
the Python `ValueError` is caught inside the function. -/
theorem claim_C7_timestamp_total (now : Timestamp)
    (fromiso : String → Option Timestamp) (ts : String) :
    ((ts = "" ∨ fromiso (pyReplaceZ ts) = none) → _parse_timestamp now fromiso ts = now) ∧
    (∀ d, ts ≠ "" → fromiso (pyReplaceZ ts) = some d →
      _parse_timestamp now fromiso ts = d) ∧
    (∀ s : String, (∀ c ∈ s.data, c ≠ 'Z') →
      pyReplaceZ (s ++ "Z") = s ++ "+00:00") := by
  refine ⟨?_, ?_, ?_⟩
  · intro h
    rcases h with h | h
    · simp [_parse_timestamp, h]
    · unfold _parse_timestamp
      by_cases he : ts = ""
      · simp [he]
      · rw [if_neg he, h]
  · intro d hne hsome
    unfold _parse_timestamp
    rw [if_neg hne, hsome]
  · intro s hs
    unfold pyReplaceZ
    cases s with
    | mk l =>
      show String.mk ((String.mk l ++ "Z").data.flatMap _) = _
      have hdata : (String.mk l ++ "Z").data = l ++ ['Z'] := rfl
      rw [hdata, List.flatMap_append, flatMap_noZ l hs]
      rfl

def c7iso : String → Option Timestamp :=
  fun s => if s = "2024-01-01T00:00:00+00:00" then some 42 else none

theorem claim_C7_witness :
    _parse_timestamp 7 c7iso "2024-01-01T00:00:00Z" = 42 ∧
    _parse_timestamp 7 c7iso "" = 7 :=
  ⟨(claim_C7_timestamp_total 7 c7iso "2024-01-01T00:00:00Z").2.1 42
      (by decide) (by decide),
   (claim_C7_timestamp_total 7 c7iso "").1 (Or.inl rfl)⟩

/-! ### C8: the round-trip verifier -/

/-- By the entry-level round trip, the mismatch collector never records a
line (the comparison `original != serialized` is always false). -/
theorem roundtripMismatches_nil (now : Timestamp)
    (fromiso : String → Option Timestamp) :
    ∀ (n : Nat) (ls : List Line), roundtripMismatches now fromiso n ls = [] := by
  intro n ls
  induction ls generalizing n with
  | nil => rfl
  | cons l rest ih =>
    cases l with
    | ok d =>
      unfold roundtripMismatches
      rw [if_neg (by simp [to_dict_parse_entry])]
      exact ih (n + 1)
    | blank => exact ih (n + 1)
    | malformed => exact ih (n + 1)

/-- C8: `verify_roundtrip` returns the boolean verdict together with the
1-indexed mismatching line list, the verdict being true exactly when that
list is empty; a malformed line is skipped and never counted, so its
presence does not change the verdict, and a file containing only
non-decoding lines verifies as successful.  (In this code the mismatch
list is in fact always empty, because `Entry.to_dict` returns the retained
original record — see `roundtripMismatches_nil`.) -/
theorem claim_C8_verifier (now : Timestamp) (fromiso : String → Option Timestamp)
    (lines pre post : List Line) :
    ((verify_roundtrip now fromiso lines).1 = true ↔
      (verify_roundtrip now fromiso lines).2 = []) ∧
    (verify_roundtrip now fromiso lines).2 = [] ∧
    ((verify_roundtrip now fromiso (pre ++ Line.malformed :: post)).1 =
      (verify_roundtrip now fromiso (pre ++ post)).1) ∧
    ((∀ l ∈ lines, l.isOk = false) →
      verify_roundtrip now fromiso lines = (true, [])) := by
  have hm := roundtripMismatches_nil now fromiso
  refine ⟨?_, ?_, ?_, ?_⟩
  · simp [verify_roundtrip, hm]
  · simp [verify_roundtrip, hm]
  · simp [verify_roundtrip, hm]
  · intro _
    simp [verify_roundtrip, hm]

theorem claim_C8_witness :
    verify_roundtrip 0 isoNone [Line.malformed, Line.blank] = (true, []) ∧
    ((verify_roundtrip 0 isoNone [Line.malformed]).1 =
      (verify_roundtrip 0 isoNone []).1) :=
  ⟨(claim_C8_verifier 0 isoNone [Line.malformed, Line.blank] [] []).2.2.2
      (by decide),
   (claim_C8_verifier 0 isoNone [] [] []).2.2.1⟩

/-! ### C9: assistant entries with no active interaction are ignored -/

/-- `isinstance(entry, AssistantEntry)`. -/
def isAssistantEntry (e : Entry) : Bool :=
  match e.data with
  | .assistant _ _ => true
  | _ => false

/-- An assistant entry stepping a state with no active interaction leaves
the state unchanged. -/
theorem buildStep_assistant_inactive (st : BuildState) (e : Entry)
    (ha : isAssistantEntry e = true) (hc : st.current = none) :
    buildStep st e = st := by
  obtain ⟨u, ts, et, raw, data⟩ := e
  cases data with
  | assistant msg rid => simp [buildStep, _is_human_message, hc]
  | user msg ut => simp [isAssistantEntry] at ha
  | system a b c d => simp [isAssistantEntry] at ha
  | fileHistorySnapshot a b c => simp [isAssistantEntry] at ha
  | summary a b => simp [isAssistantEntry] at ha
  | queueOperation a b => simp [isAssistantEntry] at ha
  | unknown => simp [isAssistantEntry] at ha

/-- C9: an Assistant entry that arrives while no interaction is active is
ignored entirely — `build_interactions` on the sequence with it present
equals `build_interactions` on the sequence with it removed, so it
contributes no action, model or final_response to any interaction. -/
theorem claim_C9_inactive_assistant_ignored (l1 l2 : List Entry) (a : Entry)
    (ha : isAssistantEntry a = true)
    (hc : (l1.foldl buildStep buildInit).current = none) :
    build_interactions (l1 ++ a :: l2) = build_interactions (l1 ++ l2) := by
  have hfold : (l1 ++ a :: l2).foldl buildStep buildInit =
      (l1 ++ l2).foldl buildStep buildInit := by
    rw [List.foldl_append, List.foldl_append, List.foldl_cons,
        buildStep_assistant_inactive _ _ ha hc]
  simp only [build_interactions, hfold]

theorem claim_C9_witness :
    build_interactions [parse_entry 0 isoNone c3r2, parse_entry 0 isoNone c3r1] =
      build_interactions [parse_entry 0 isoNone c3r1] :=
  claim_C9_inactive_assistant_ignored [] [parse_entry 0 isoNone c3r1]
    (parse_entry 0 isoNone c3r2) (by decide) (by decide)

/-! ### C10: sequential interaction ids and exactly-once flushing -/

/-- Invariant of the `build_interactions` fold state: the flushed
interactions carry the ids `interaction-1 .. interaction-n` in order, the
counter counts flushed plus active interactions, and the active
interaction (if any) carries the counter's id. -/
def BuildInv (st : BuildState) : Prop :=
  st.interactions.map Interaction.id =
    (List.range st.interactions.length).map (fun k => "interaction-" ++ toString (k + 1)) ∧
  st.counter = st.interactions.length + st.current.toList.length ∧
  ∀ c, st.current = some c → c.id = "interaction-" ++ toString st.counter

/-- A human message flushes the current interaction and opens a fresh one
with the next sequential id. -/
theorem buildStep_human (st : BuildState) (e : Entry)
    (h : _is_human_message e = true) :
    buildStep st e =
      { interactions := st.interactions ++ st.current.toList
        current := some
          { id := "interaction-" ++ toString (st.counter + 1)
            timestamp := e.timestamp
            user_prompt := _get_text_content e
            actions := []
            final_response := none
            model := none
            cancel_reason := none }
        counter := st.counter + 1 } := by
  obtain ⟨u, ts, et, raw, data⟩ := e
  cases data with
  | user msg ut =>
    cases hc : st.current with
    | none => simp [buildStep, h, hc]
    | some c => simp [buildStep, h, hc]
  | assistant msg rid => simp [_is_human_message] at h
  | system a b c d => simp [_is_human_message] at h
  | fileHistorySnapshot a b c => simp [_is_human_message] at h
  | summary a b => simp [_is_human_message] at h
  | queueOperation a b => simp [_is_human_message] at h
  | unknown => simp [_is_human_message] at h

/-- A non-human entry never flushes, never changes the counter, and keeps
the active interaction's identity (it may only fill in its fields). -/
theorem buildStep_not_human (st : BuildState) (e : Entry)
    (h : _is_human_message e = false) :
    (buildStep st e).interactions = st.interactions ∧
    (buildStep st e).counter = st.counter ∧
    (buildStep st e).current.map Interaction.id = st.current.map Interaction.id := by
  obtain ⟨u, ts, et, raw, data⟩ := e
  cases data with
  | system a b c d => exact ⟨rfl, rfl, rfl⟩
  | summary a b => exact ⟨rfl, rfl, rfl⟩
  | fileHistorySnapshot a b c => exact ⟨rfl, rfl, rfl⟩
  | queueOperation a b => exact ⟨rfl, rfl, rfl⟩
  | unknown => exact ⟨rfl, rfl, rfl⟩
  | user msg ut =>
    cases hc : st.current with
    | none => simp [buildStep, h, hc]
    | some cur =>
      refine ⟨?_, ?_, ?_⟩
      · simp only [buildStep, h, hc]
        repeat' split
        all_goals first
          | rfl
          | simp_all
      · simp only [buildStep, h, hc]
        repeat' split
        all_goals first
          | rfl
          | simp_all
      · simp only [buildStep, h, hc]
        repeat' split
        all_goals first
          | rfl
          | simp_all
  | assistant msg rid =>
    cases hc : st.current with
    | none => simp [buildStep, h, hc]
    | some cur =>
      refine ⟨?_, ?_, ?_⟩
      · simp only [buildStep, h, hc]
        repeat' split
        all_goals first
          | rfl
          | simp_all
      · simp only [buildStep, h, hc]
        repeat' split
        all_goals first
          | rfl
          | simp_all
      · simp only [buildStep, h, hc]
        repeat' split
        all_goals first
          | rfl
          | simp_all

/-- The counter advances exactly on human messages. -/
theorem buildStep_counter (st : BuildState) (e : Entry) :
    (buildStep st e).counter =
      st.counter + (if _is_human_message e = true then 1 else 0) := by
  by_cases h : _is_human_message e = true
  · rw [buildStep_human st e h, if_pos h]
  · have h' : _is_human_message e = false := Bool.eq_false_iff.mpr h
    rw [(buildStep_not_human st e h').2.1, if_neg h, Nat.add_zero]

/-- `buildStep` preserves the invariant. -/
theorem buildStep_inv (st : BuildState) (e : Entry) (h : BuildInv st) :
    BuildInv (buildStep st e) := by
  obtain ⟨h1, h2, h3⟩ := h
  by_cases hh : _is_human_message e = true
  · rw [buildStep_human st e hh]
    cases hc : st.current with
    | none =>
      rw [hc] at h2
      simp only [Option.toList_none, List.length_nil, Nat.add_zero] at h2
      refine ⟨?_, ?_, ?_⟩
      · simpa [hc] using h1
      · simp [hc, h2]
      · intro c hcc
        simp only [Option.some.injEq] at hcc
        rw [← hcc, h2]
    | some c0 =>
      rw [hc] at h2
      simp only [Option.toList_some, List.length_singleton] at h2
      refine ⟨?_, ?_, ?_⟩
      · simp only [hc, Option.toList_some, List.map_append, List.length_append,
          List.length_singleton, h1, List.map_cons, List.map_nil]
        rw [List.range_succ, List.map_append]
        simp [h3 c0 hc, h2]
      · simp [hc, h2]
      · intro c hcc
        simp only [Option.some.injEq] at hcc
        rw [← hcc]
  · have h' : _is_human_message e = false := Bool.eq_false_iff.mpr hh
    obtain ⟨g1, g2, g3⟩ := buildStep_not_human st e h'
    refine ⟨by rw [g1]; exact h1, ?_, ?_⟩
    · rw [g2, g1, h2]
      congr 1
      cases hb : (buildStep st e).current with
      | none =>
        cases hs : st.current with
        | none => rfl
        | some c0 => rw [hb, hs] at g3; simp at g3
      | some c =>
        cases hs : st.current with
        | none => rw [hb, hs] at g3; simp at g3
        | some c0 => rfl
    · intro c hcc
      rw [g2]
      cases hs : st.current with
      | none => rw [hcc, hs] at g3; simp at g3
      | some c0 =>
        rw [hcc, hs] at g3
        simp at g3
        rw [g3]
        exact h3 c0 hs

/-- Folding any entry list preserves the invariant and advances the
counter by the number of human messages. -/
theorem buildFold_inv (es : List Entry) : ∀ st : BuildState, BuildInv st →
    BuildInv (es.foldl buildStep st) ∧
    (es.foldl buildStep st).counter =
      st.counter + (es.filter (fun e => _is_human_message e)).length := by
  induction es with
  | nil => intro st h; exact ⟨h, by simp⟩
  | cons e rest ih =>
    intro st h
    obtain ⟨ih1, ih2⟩ := ih (buildStep st e) (buildStep_inv st e h)
    refine ⟨by simpa using ih1, ?_⟩
    simp only [List.foldl_cons] at *
    rw [ih2, buildStep_counter, List.filter_cons]
    by_cases hh : _is_human_message e = true
    · simp [hh, Nat.add_assoc, Nat.add_comm 1]
    · have h' : _is_human_message e = false := Bool.eq_false_iff.mpr hh
      simp [h']

/-- C10: `build_interactions` preserves creation order and sequential
identity — the k-th interaction of the returned list (0-indexed k) has id
`interaction-(k+1)`, and the list has exactly one interaction per human
message of the input (each started interaction is flushed exactly once,
either by the next human message or at end of input). -/
theorem claim_C10_sequential_ids (entries : List Entry) :
    (build_interactions entries).map Interaction.id =
      (List.range ((entries.filter (fun e => _is_human_message e)).length)).map
        (fun k => "interaction-" ++ toString (k + 1)) := by
  have hinit : BuildInv buildInit :=
    ⟨rfl, rfl, fun c hc => Option.noConfusion hc⟩
  obtain ⟨⟨h1, h2, h3⟩, hcnt⟩ := buildFold_inv entries buildInit hinit
  have hcnt' : (entries.foldl buildStep buildInit).counter =
      (entries.filter (fun e => _is_human_message e)).length := by
    simpa [buildInit] using hcnt
  simp only [build_interactions]
  cases hc : (entries.foldl buildStep buildInit).current with
  | none =>
    rw [hc] at h2
    simp only [Option.toList_none, List.length_nil, Nat.add_zero] at h2
    rw [h1, ← hcnt', h2]
  | some c =>
    rw [hc] at h2
    simp only [Option.toList_some, List.length_singleton] at h2
    rw [← hcnt', h2, List.range_succ, List.map_append, List.map_append, h1]
    simp [h3 c hc, h2]

/-! ### C2 and C6: correctness of the thread reconstruction

The claims about `get_conversations` assume a well-formed session: every
entry has a non-empty string uuid, uuids are pairwise distinct, and the
parent links contain no cycle.  Acyclicity is expressed as the existence
of a ranking of uuids that strictly increases from parent to child, which
for a finite session is equivalent to the absence of a parent-link cycle
(on a cyclic session the source's DFS loop does not terminate). -/

/-- Every entry's uuid is a non-empty string. -/
def UuidsOk (entries : List Entry) : Prop :=
  ∀ e ∈ entries, ∃ u : String, e.uuid = Json.str u ∧ u ≠ ""

/-- Uuids are pairwise distinct. -/
def UuidsNodup (entries : List Entry) : Prop :=
  (entries.map Entry.uuid).Nodup

/-- `rk` ranks uuids so that every resolved parent link strictly
increases it — the no-parent-link-cycle assumption. -/
def ParentRanked (entries : List Entry) (rk : Json → Nat) : Prop :=
  ∀ p ∈ entries, ∀ c ∈ entries, c.parent_uuid = p.uuid → rk p.uuid < rk c.uuid

/-- The session's children map (the `children` dict of
`get_conversations`, as used by its DFS). -/
def sessionChildren (entries : List Entry) : Json → List Entry :=
  childrenOf entries (buildUuidMap entries)

/-- Mirror of `dfsThread` that distinguishes fuel exhaustion (`none`)
from a completed traversal. -/
def dfsRun (cs : Json → List Entry) : Nat → List Entry → Option (List Entry)
  | _, [] => some []
  | 0, _ :: _ => none
  | fuel + 1, e :: stack => (dfsRun cs fuel (cs e.uuid ++ stack)).map (fun t => e :: t)

theorem dfsRun_thread (cs : Json → List Entry) :
    ∀ (fuel : Nat) (stack t : List Entry),
      dfsRun cs fuel stack = some t → dfsThread cs fuel stack = t := by
  intro fuel
  induction fuel with
  | zero =>
    intro stack t h
    cases stack with
    | nil => cases h; rfl
    | cons e st => exact Option.noConfusion h
  | succ f ih =>
    intro stack t h
    cases stack with
    | nil => cases h; rfl
    | cons e st =>
      simp only [dfsRun, Option.map_eq_some'] at h
      obtain ⟨t', ht', rfl⟩ := h
      simp only [dfsThread]
      rw [ih _ _ ht']

theorem dfsRun_nil (cs : Json → List Entry) : ∀ fuel, dfsRun cs fuel [] = some [] := by
  intro fuel
  cases fuel <;> rfl

theorem dfsRun_mono (cs : Json → List Entry) :
    ∀ (fuel k : Nat) (stack t : List Entry),
      dfsRun cs fuel stack = some t → dfsRun cs (fuel + k) stack = some t := by
  intro fuel
  induction fuel with
  | zero =>
    intro k stack t h
    cases stack with
    | nil => cases h; cases k <;> rfl
    | cons e st => exact Option.noConfusion h
  | succ f ih =>
    intro k stack t h
    cases stack with
    | nil =>
      cases h
      exact dfsRun_nil cs _
    | cons e st =>
      simp only [dfsRun, Option.map_eq_some'] at h
      obtain ⟨t', ht', rfl⟩ := h
      have : f + 1 + k = (f + k) + 1 := by omega
      rw [this]
      simp only [dfsRun, Option.map_eq_some']
      exact ⟨t', ih k _ t' ht', rfl⟩

theorem dfsRun_append (cs : Json → List Entry) :
    ∀ (f1 : Nat) (s1 t1 : List Entry) (f2 : Nat) (s2 t2 : List Entry),
      dfsRun cs f1 s1 = some t1 → dfsRun cs f2 s2 = some t2 →
      dfsRun cs (f1 + f2) (s1 ++ s2) = some (t1 ++ t2) := by
  intro f1
  induction f1 with
  | zero =>
    intro s1 t1 f2 s2 t2 h1 h2
    cases s1 with
    | nil =>
      cases h1
      simpa using dfsRun_mono cs f2 0 s2 t2 h2
    | cons e st => exact Option.noConfusion h1
  | succ f ih =>
    intro s1 t1 f2 s2 t2 h1 h2
    cases s1 with
    | nil =>
      cases h1
      simp only [List.nil_append]
      have := dfsRun_mono cs f2 (f + 1) s2 t2 h2
      rw [Nat.add_comm f2 (f + 1)] at this
      simpa using this
    | cons e st =>
      simp only [dfsRun, Option.map_eq_some'] at h1
      obtain ⟨t', ht', rfl⟩ := h1
      have harith : f + 1 + f2 = (f + f2) + 1 := by omega
      rw [harith]
      simp only [List.cons_append, dfsRun, Option.map_eq_some']
      refine ⟨t' ++ t2, ?_, by simp⟩
      have := ih (cs e.uuid ++ st) t' f2 s2 t2 ht' h2
      rwa [List.append_assoc] at this

/-- `x` lies in the subtree of `a` under the children map `cs` (the
reflexive-transitive closure of the child step). -/
inductive Desc (cs : Json → List Entry) (a : Entry) : Entry → Prop where
  | refl : Desc cs a a
  | step {p c : Entry} : Desc cs a p → c ∈ cs p.uuid → Desc cs a c

theorem desc_trans {cs : Json → List Entry} {a b c : Entry}
    (h1 : Desc cs a b) (h2 : Desc cs b c) : Desc cs a c := by
  induction h2 with
  | refl => exact h1
  | step hp hmem ih => exact .step ih hmem

theorem desc_last_step {cs : Json → List Entry} {a x : Entry} (h : Desc cs a x) :
    x = a ∨ ∃ q, Desc cs a q ∧ x ∈ cs q.uuid := by
  cases h with
  | refl => exact Or.inl rfl
  | step hp hmem => exact Or.inr ⟨_, hp, hmem⟩

theorem desc_first_step {cs : Json → List Entry} {a x : Entry} (h : Desc cs a x) :
    x = a ∨ ∃ c ∈ cs a.uuid, Desc cs c x := by
  induction h with
  | refl => exact Or.inl rfl
  | @step p c hp hmem ih =>
    rcases ih with rfl | ⟨c0, hc0, hdesc⟩
    · exact Or.inr ⟨c, hmem, .refl⟩
    · exact Or.inr ⟨c0, hc0, .step hdesc hmem⟩

/-- Children are entries of the session. -/
theorem children_sub {entries : List Entry} {m : List (Json × Entry)} {u : Json}
    {c : Entry} (h : c ∈ childrenOf entries m u) : c ∈ entries :=
  (List.mem_filter.mp h).1

/-- A child's parent reference is the uuid it is indexed under. -/
theorem children_parent_eq {entries : List Entry} {m : List (Json × Entry)} {u : Json}
    {c : Entry} (h : c ∈ childrenOf entries m u) : c.parent_uuid = u := by
  have := (List.mem_filter.mp h).2
  simp only [Bool.and_eq_true, decide_eq_true_eq] at this
  exact this.2

/-- A child is never a root (its parent reference is truthy and
resolves). -/
theorem children_not_root {entries : List Entry} {m : List (Json × Entry)} {u : Json}
    {c : Entry} (h : c ∈ childrenOf entries m u) : isRootEntry m c = false := by
  have h' := (List.mem_filter.mp h).2
  simp only [Bool.and_eq_true, decide_eq_true_eq] at h'
  obtain ⟨⟨htr, hsome⟩, _⟩ := h'
  cases hlk : uuidLookup m c.parent_uuid with
  | none => rw [hlk] at hsome; simp at hsome
  | some v =>
    unfold isRootEntry
    rw [htr, hlk]
    rfl

theorem desc_mem {entries : List Entry} {m : List (Json × Entry)} {a x : Entry}
    (h : Desc (childrenOf entries m) a x) (ha : a ∈ entries) : x ∈ entries := by
  induction h with
  | refl => exact ha
  | step hp hmem ih => exact children_sub hmem

/-- Membership in any session is decidable, so is a uuid truthy, etc.;
a non-empty string uuid is truthy. -/
theorem uuid_truthy {entries : List Entry} (h1 : UuidsOk entries) :
    ∀ e ∈ entries, jsonTruthy e.uuid = true := by
  intro e he
  obtain ⟨u, hu, hne⟩ := h1 e he
  rw [hu]
  simpa [jsonTruthy] using hne

/-- With distinct uuids, an entry is determined by its uuid. -/
theorem uuid_inj {entries : List Entry} (h2 : UuidsNodup entries) {p q : Entry}
    (hp : p ∈ entries) (hq : q ∈ entries) (h : p.uuid = q.uuid) : p = q :=
  List.inj_on_of_nodup_map h2 hp hq h

/-- Under the well-formedness assumptions the uuid map is simply the
association list of (uuid, entry) pairs in session order. -/
theorem buildUuidMap_eq {entries : List Entry} (h1 : UuidsOk entries)
    (h2 : UuidsNodup entries) :
    buildUuidMap entries = entries.map (fun e => (e.uuid, e)) := by
  have go : ∀ (es : List Entry) (acc : List (Json × Entry)),
      (∀ e ∈ es, jsonTruthy e.uuid = true) →
      (∀ e ∈ es, ∀ p ∈ acc, p.1 ≠ e.uuid) →
      (es.map Entry.uuid).Nodup →
      es.foldl (fun m e => if jsonTruthy e.uuid then uuidMapInsert m e.uuid e else m) acc =
        acc ++ es.map (fun e => (e.uuid, e)) := by
    intro es
    induction es with
    | nil => intro acc _ _ _; simp
    | cons e rest ih =>
      intro acc htr hfresh hnd
      simp only [List.foldl_cons]
      rw [if_pos (htr e (List.mem_cons_self e rest))]
      have hins : uuidMapInsert acc e.uuid e = acc ++ [(e.uuid, e)] := by
        unfold uuidMapInsert
        rw [if_neg]
        intro hany
        obtain ⟨p, hp, hpe⟩ := List.any_eq_true.mp hany
        exact hfresh e (List.mem_cons_self e rest) p hp (of_decide_eq_true hpe)
      rw [hins, ih (acc ++ [(e.uuid, e)]) ?_ ?_ ?_]
      · simp
      · exact fun x hx => htr x (List.mem_cons_of_mem e hx)
      · intro x hx p hp
        rcases List.mem_append.mp hp with hp | hp
        · exact hfresh x (List.mem_cons_of_mem e hx) p hp
        · simp only [List.mem_singleton] at hp
          subst hp
          simp only [List.map_cons, List.nodup_cons] at hnd
          intro heq
          have heq' : e.uuid = x.uuid := heq
          exact hnd.1 (heq' ▸ List.mem_map_of_mem Entry.uuid hx)
      · have hnd' := hnd
        simp only [List.map_cons, List.nodup_cons] at hnd'
        exact hnd'.2
  exact go entries [] (uuid_truthy h1) (fun _ _ p hp => absurd hp (List.not_mem_nil p)) h2

/-- Looking up an entry's own uuid finds it. -/
theorem uuidLookup_self : ∀ (es : List Entry), (es.map Entry.uuid).Nodup →
    ∀ e ∈ es, uuidLookup (es.map (fun e => (e.uuid, e))) e.uuid = some e := by
  intro es
  induction es with
  | nil => intro _ e he; cases he
  | cons e0 rest ih =>
    intro hnd e he
    simp only [List.map_cons, List.nodup_cons] at hnd
    rcases List.mem_cons.mp he with rfl | he
    · simp [uuidLookup, List.find?_cons_of_pos]
    · have hne : ¬((e0.uuid, e0).1 = e.uuid) := by
        intro heq
        have heq' : e0.uuid = e.uuid := heq
        exact hnd.1 (heq' ▸ List.mem_map_of_mem Entry.uuid he)
      simp only [uuidLookup, List.map_cons]
      rw [List.find?_cons_of_neg _ (by simpa using hne)]
      exact ih hnd.2 e he

/-- A successful lookup returns a session entry carrying the key as its
uuid. -/
theorem uuidLookup_mem : ∀ (es : List Entry) (u : Json) (x : Entry),
    uuidLookup (es.map (fun e => (e.uuid, e))) u = some x → x ∈ es ∧ x.uuid = u := by
  intro es
  induction es with
  | nil => intro u x h; exact Option.noConfusion h
  | cons e0 rest ih =>
    intro u x h
    by_cases hp : e0.uuid = u
    · simp only [uuidLookup, List.map_cons] at h
      rw [List.find?_cons_of_pos _ (by simpa using hp)] at h
      simp only [Option.map_some'] at h
      cases h
      exact ⟨List.mem_cons_self _ _, hp⟩
    · simp only [uuidLookup, List.map_cons] at h
      rw [List.find?_cons_of_neg _ (by simpa using hp)] at h
      obtain ⟨hx, hu⟩ := ih u x h
      exact ⟨List.mem_cons_of_mem e0 hx, hu⟩

/-- Rank never decreases along the subtree relation. -/
theorem desc_rank_le {entries : List Entry} {rk : Json → Nat}
    (hr : ParentRanked entries rk) {a x : Entry} (ha : a ∈ entries)
    (h : Desc (sessionChildren entries) a x) : rk a.uuid ≤ rk x.uuid := by
  induction h with
  | refl => exact le_refl _
  | @step p c hp hmem ih =>
    have hpe : p ∈ entries := desc_mem hp ha
    have hce : c ∈ entries := children_sub hmem
    have := hr p hpe c hce (children_parent_eq hmem)
    omega

/-- With distinct uuids an entry has at most one parent entry. -/
theorem child_parent_unique {entries : List Entry} (h2 : UuidsNodup entries)
    {c p q : Entry} (hp : p ∈ entries) (hq : q ∈ entries)
    (hcp : c ∈ sessionChildren entries p.uuid)
    (hcq : c ∈ sessionChildren entries q.uuid) : p = q :=
  uuid_inj h2 hp hq ((children_parent_eq hcp).symm.trans (children_parent_eq hcq))

/-- Two ancestors of a common entry are comparable (the ancestor chain is
unique because parents are). -/
theorem desc_chain {entries : List Entry} (h2 : UuidsNodup entries) {a b x : Entry}
    (ha : a ∈ entries) (hb : b ∈ entries)
    (hax : Desc (sessionChildren entries) a x) :
    Desc (sessionChildren entries) b x →
      Desc (sessionChildren entries) a b ∨ Desc (sessionChildren entries) b a := by
  induction hax with
  | refl => intro hbx; exact Or.inr hbx
  | @step p c hap hmem ih =>
    intro hbc
    rcases desc_last_step hbc with rfl | ⟨q, hbq, hcq⟩
    · exact Or.inl (.step hap hmem)
    · have hpe : p ∈ entries := desc_mem hap ha
      have hqe : q ∈ entries := desc_mem hbq hb
      have hpq : p = q := child_parent_unique h2 hpe hqe hmem hcq
      subst hpq
      exact ih hbq

/-- One sibling's subtree never contains a different sibling. -/
theorem desc_sibling_absurd {entries : List Entry} {rk : Json → Nat}
    (h2 : UuidsNodup entries) (hr : ParentRanked entries rk) {p c d : Entry}
    (hp : p ∈ entries) (hc : c ∈ sessionChildren entries p.uuid)
    (hd : d ∈ sessionChildren entries p.uuid) (hne : c ≠ d)
    (hcd : Desc (sessionChildren entries) c d) : False := by
  have hce := children_sub hc
  rcases desc_last_step hcd with h | ⟨q, hcq, hdq⟩
  · exact hne h.symm
  · have hqe : q ∈ entries := desc_mem hcq hce
    have hqp : q = p := child_parent_unique h2 hqe hp hdq hd
    have hle := desc_rank_le hr hce hcq
    have hlt := hr p hp c hce (children_parent_eq hc)
    rw [hqp] at hle
    omega

/-- Subtrees of distinct siblings are disjoint. -/
theorem siblings_disjoint {entries : List Entry} {rk : Json → Nat}
    (h2 : UuidsNodup entries) (hr : ParentRanked entries rk) {p c d : Entry}
    (hp : p ∈ entries) (hc : c ∈ sessionChildren entries p.uuid)
    (hd : d ∈ sessionChildren entries p.uuid) (hne : c ≠ d) (x : Entry)
    (hcx : Desc (sessionChildren entries) c x)
    (hdx : Desc (sessionChildren entries) d x) : False := by
  have hce := children_sub hc
  have hde := children_sub hd
  rcases desc_chain h2 hce hde hcx hdx with h | h
  · exact desc_sibling_absurd h2 hr hp hc hd hne h
  · exact desc_sibling_absurd h2 hr hp hd hc (Ne.symm hne) h

/-- Every entry descends from a root of the session (follow the parent
chain up; it terminates because the rank strictly decreases). -/
theorem exists_root {entries : List Entry} (h1 : UuidsOk entries)
    (h2 : UuidsNodup entries) {rk : Json → Nat} (hr : ParentRanked entries rk) :
    ∀ x ∈ entries, ∃ r, r ∈ entries ∧
      isRootEntry (buildUuidMap entries) r = true ∧
      Desc (sessionChildren entries) r x := by
  have main : ∀ n, ∀ x, x ∈ entries → rk x.uuid ≤ n →
      ∃ r, r ∈ entries ∧ isRootEntry (buildUuidMap entries) r = true ∧
        Desc (sessionChildren entries) r x := by
    intro n
    induction n using Nat.strong_induction_on with
    | _ n ih =>
      intro x hx hn
      by_cases hroot : isRootEntry (buildUuidMap entries) x = true
      · exact ⟨x, hx, hroot, .refl⟩
      · have hroot' : isRootEntry (buildUuidMap entries) x = false :=
          Bool.eq_false_iff.mpr hroot
        unfold isRootEntry at hroot'
        rw [Bool.or_eq_false_iff, Bool.not_eq_false'] at hroot'
        obtain ⟨htr, hlk⟩ := hroot'
        cases hlku : uuidLookup (buildUuidMap entries) x.parent_uuid with
        | none => rw [hlku] at hlk; exact absurd hlk (by simp)
        | some p =>
          have hlku2 := hlku
          rw [buildUuidMap_eq h1 h2] at hlku2
          obtain ⟨hpe, hpu⟩ := uuidLookup_mem entries _ p hlku2
          have hchild : x ∈ sessionChildren entries p.uuid := by
            unfold sessionChildren childrenOf
            rw [List.mem_filter]
            refine ⟨hx, ?_⟩
            simp only [Bool.and_eq_true, decide_eq_true_eq]
            exact ⟨⟨htr, by rw [hlku]; rfl⟩, hpu.symm⟩
          have hlt : rk p.uuid < rk x.uuid :=
            hr p hpe x hx (children_parent_eq hchild)
          obtain ⟨r, hre, hrr, hrp⟩ := ih (rk p.uuid) (by omega) p hpe (le_refl _)
          exact ⟨r, hre, hrr, .step hrp hchild⟩
  intro x hx
  exact main (rk x.uuid) x hx (le_refl _)

/-- An entry descends from at most one root. -/
theorem root_unique {entries : List Entry} (h2 : UuidsNodup entries)
    {r1 r2 x : Entry} (hr1e : r1 ∈ entries) (hr2e : r2 ∈ entries)
    (hr1 : isRootEntry (buildUuidMap entries) r1 = true)
    (hr2 : isRootEntry (buildUuidMap entries) r2 = true)
    (h1x : Desc (sessionChildren entries) r1 x)
    (h2x : Desc (sessionChildren entries) r2 x) : r1 = r2 := by
  rcases desc_chain h2 hr1e hr2e h1x h2x with h | h
  · rcases desc_last_step h with h' | ⟨q, _, hq⟩
    · exact h'.symm
    · have hfalse := children_not_root hq
      rw [hr2] at hfalse
      exact Bool.noConfusion hfalse
  · rcases desc_last_step h with h' | ⟨q, _, hq⟩
    · exact h'
    · have hfalse := children_not_root hq
      rw [hr1] at hfalse
      exact Bool.noConfusion hfalse

/-- What the DFS produces from a single-entry stack: the traversal
completes in exactly its own length of fuel, starts with the entry,
contains exactly the entry's subtree, has no duplicates, and lists every
visited entry's children as a subsequence (sibling order preserved). -/
def SubtreeSpec (cs : Json → List Entry) (e : Entry) (t : List Entry) : Prop :=
  dfsRun cs t.length [e] = some t ∧
  (∃ r, t = e :: r) ∧
  (∀ x, x ∈ t ↔ Desc cs e x) ∧
  t.Nodup ∧
  (∀ x ∈ t, List.Sublist (cs x.uuid) t)

/-- The same for a whole stack of pairwise-disjoint subtree roots. -/
def StackSpec (cs : Json → List Entry) (csl : List Entry) (t : List Entry) : Prop :=
  dfsRun cs t.length csl = some t ∧
  (∀ x, x ∈ t ↔ ∃ c ∈ csl, Desc cs c x) ∧
  t.Nodup ∧
  (∀ x ∈ t, List.Sublist (cs x.uuid) t) ∧
  List.Sublist csl t

theorem stack_spec (cs : Json → List Entry) :
    ∀ csl : List Entry,
      csl.Pairwise (fun c d => ∀ x, Desc cs c x → Desc cs d x → False) →
      (∀ c ∈ csl, ∃ t, SubtreeSpec cs c t) →
      ∃ t, StackSpec cs csl t := by
  intro csl
  induction csl with
  | nil =>
    intro _ _
    exact ⟨[], rfl, by simp, List.nodup_nil, by simp, List.Sublist.refl []⟩
  | cons c rest ih =>
    intro hpw hsub
    obtain ⟨tc, hrc, ⟨tc', rfl⟩, hmc, hnc, hbc⟩ := hsub c (List.mem_cons_self c rest)
    obtain ⟨tr, hrr, hmr, hnr, hbr, hsr⟩ :=
      ih (List.pairwise_cons.mp hpw).2 (fun d hd => hsub d (List.mem_cons_of_mem c hd))
    have hhead : ∀ d ∈ rest, ∀ x, Desc cs c x → Desc cs d x → False :=
      (List.pairwise_cons.mp hpw).1
    refine ⟨(c :: tc') ++ tr, ?_, ?_, ?_, ?_, ?_⟩
    · have hap := dfsRun_append cs (c :: tc').length [c] (c :: tc') tr.length rest tr hrc hrr
      rw [List.length_append]
      exact hap
    · intro x
      constructor
      · intro hx
        rcases List.mem_append.mp hx with hx | hx
        · exact ⟨c, List.mem_cons_self c rest, (hmc x).mp hx⟩
        · obtain ⟨d, hd, hdx⟩ := (hmr x).mp hx
          exact ⟨d, List.mem_cons_of_mem c hd, hdx⟩
      · rintro ⟨d, hd, hdx⟩
        rcases List.mem_cons.mp hd with rfl | hd
        · exact List.mem_append.mpr (Or.inl ((hmc x).mpr hdx))
        · exact List.mem_append.mpr (Or.inr ((hmr x).mpr ⟨d, hd, hdx⟩))
    · rw [List.nodup_append]
      refine ⟨hnc, hnr, ?_⟩
      intro x hxc hxr
      obtain ⟨d, hd, hdx⟩ := (hmr x).mp hxr
      exact hhead d hd x ((hmc x).mp hxc) hdx
    · intro x hx
      rcases List.mem_append.mp hx with hx | hx
      · exact (hbc x hx).trans (List.sublist_append_left _ _)
      · exact (hbr x hx).trans (List.sublist_append_right _ _)
    · have hq : List.Sublist rest (tc' ++ tr) :=
        hsr.trans (List.sublist_append_right tc' tr)
      exact List.Sublist.cons₂ c hq

theorem le_foldr_max : ∀ l : List Nat, ∀ x ∈ l, x ≤ l.foldr max 0 := by
  intro l
  induction l with
  | nil => intro x hx; cases hx
  | cons a rest ih =>
    intro x hx
    rcases List.mem_cons.mp hx with rfl | hx
    · exact le_max_left _ _
    · exact le_trans (ih x hx) (le_max_right _ _)

/-- The central traversal lemma: for a well-formed session the DFS from
any entry terminates and produces exactly the entry's subtree, without
duplication and with every sibling list appearing in order.  The
induction is on `n`, an upper bound for how far the rank can still rise
below `e`. -/
theorem subtree_spec {entries : List Entry}
    (h2 : UuidsNodup entries) {rk : Json → Nat} (hr : ParentRanked entries rk) :
    ∀ (n : Nat) (e : Entry), e ∈ entries →
      (∀ y ∈ entries, rk y.uuid ≤ rk e.uuid + n) →
      ∃ t, SubtreeSpec (sessionChildren entries) e t := by
  intro n
  induction n with
  | zero =>
    intro e he hb
    have hcs : sessionChildren entries e.uuid = [] := by
      cases hemp : sessionChildren entries e.uuid with
      | nil => rfl
      | cons c cl =>
        exfalso
        have hc : c ∈ sessionChildren entries e.uuid := by
          rw [hemp]; exact List.mem_cons_self c cl
        have hce : c ∈ entries := children_sub hc
        have hlt := hr e he c hce (children_parent_eq hc)
        have hle := hb c hce
        omega
    refine ⟨[e], ?_, ⟨[], rfl⟩, ?_, List.nodup_singleton e, ?_⟩
    · show dfsRun (sessionChildren entries) 1 [e] = some [e]
      simp [dfsRun, hcs]
    · intro x
      constructor
      · intro hx
        rw [List.mem_singleton.mp hx]
        exact .refl
      · intro hx
        rcases desc_first_step hx with rfl | ⟨c, hc, _⟩
        · exact List.mem_singleton.mpr rfl
        · rw [hcs] at hc; cases hc
    · intro x hx
      rw [List.mem_singleton.mp hx, hcs]
      exact List.nil_sublist _
  | succ n ih =>
    intro e he hb
    have hstep : ∀ c ∈ sessionChildren entries e.uuid,
        c ∈ entries ∧ ∀ y ∈ entries, rk y.uuid ≤ rk c.uuid + n := by
      intro c hc
      have hce := children_sub hc
      have hlt := hr e he c hce (children_parent_eq hc)
      exact ⟨hce, fun y hy => by have := hb y hy; omega⟩
    have hsub : ∀ c ∈ sessionChildren entries e.uuid,
        ∃ t, SubtreeSpec (sessionChildren entries) c t :=
      fun c hc => ih c (hstep c hc).1 (hstep c hc).2
    have hnd : (sessionChildren entries e.uuid).Nodup :=
      (List.Nodup.of_map _ h2).filter _
    have hdisj : (sessionChildren entries e.uuid).Pairwise
        (fun c d => ∀ x, Desc (sessionChildren entries) c x →
          Desc (sessionChildren entries) d x → False) := by
      refine List.Pairwise.imp_of_mem ?_ hnd
      intro c d hc hd hne x hcx hdx
      exact siblings_disjoint h2 hr he hc hd hne x hcx hdx
    obtain ⟨tj, hrun, hmem, hndj, hblk, hcsl⟩ := stack_spec _ _ hdisj hsub
    refine ⟨e :: tj, ?_, ⟨tj, rfl⟩, ?_, ?_, ?_⟩
    · show dfsRun (sessionChildren entries) (tj.length + 1) [e] = some (e :: tj)
      simp only [dfsRun, List.append_nil]
      rw [hrun]
      rfl
    · intro x
      constructor
      · intro hx
        rcases List.mem_cons.mp hx with rfl | hx
        · exact .refl
        · obtain ⟨c, hc, hcx⟩ := (hmem x).mp hx
          exact desc_trans (.step .refl hc) hcx
      · intro hx
        rcases desc_first_step hx with rfl | ⟨c, hc, hcx⟩
        · exact List.mem_cons_self _ _
        · exact List.mem_cons_of_mem e ((hmem x).mpr ⟨c, hc, hcx⟩)
    · rw [List.nodup_cons]
      refine ⟨?_, hndj⟩
      intro hin
      obtain ⟨c, hc, hce⟩ := (hmem e).mp hin
      have hcent := children_sub hc
      have hle := desc_rank_le hr hcent hce
      have hlt := hr e he c hcent (children_parent_eq hc)
      omega
    · intro x hx
      rcases List.mem_cons.mp hx with rfl | hx
      · exact hcsl.trans (List.sublist_cons_self _ _)
      · exact (hblk x hx).trans (List.sublist_cons_self _ _)

/-- For a session entry, the DFS of `get_conversations` (fuel
`entries.length`) computes exactly the specified subtree traversal. -/
theorem root_thread {entries : List Entry}
    (h2 : UuidsNodup entries) {rk : Json → Nat} (hr : ParentRanked entries rk)
    (r : Entry) (hre : r ∈ entries) :
    ∃ t, dfsThread (sessionChildren entries) entries.length [r] = t ∧
      SubtreeSpec (sessionChildren entries) r t := by
  have hb : ∀ y ∈ entries, rk y.uuid ≤
      rk r.uuid + (entries.map (fun y => rk y.uuid)).foldr max 0 := by
    intro y hy
    have := le_foldr_max (entries.map (fun y => rk y.uuid)) (rk y.uuid)
      (List.mem_map_of_mem _ hy)
    omega
  obtain ⟨t, hspec⟩ :=
    subtree_spec h2 hr ((entries.map (fun y => rk y.uuid)).foldr max 0) r hre hb
  obtain ⟨hrun, hhead, hmem, hnd, hblk⟩ := hspec
  have hsubset : t ⊆ entries := fun x hx => desc_mem ((hmem x).mp hx) hre
  have hlen : t.length ≤ entries.length := (List.Nodup.subperm hnd hsubset).length_le
  obtain ⟨k, hk⟩ := Nat.le.dest hlen
  have hrun2 : dfsRun (sessionChildren entries) entries.length [r] = some t := by
    rw [← hk]
    exact dfsRun_mono _ _ k _ _ hrun
  exact ⟨t, dfsRun_thread _ _ _ _ hrun2, hrun, hhead, hmem, hnd, hblk⟩

theorem get_conversations_eq (entries : List Entry) : get_conversations entries =
    (((sessionRoots entries (buildUuidMap entries)).filter isUserOrAssistant).map
      (fun r => dfsThread (sessionChildren entries) entries.length [r])).filter
      (fun t => !t.isEmpty) := rfl

/-- C6: for every session with distinct non-empty uuids and no
parent-link cycle, every thread produced by `get_conversations` — the DFS
with an explicit stack onto which children are pushed in reverse order (so
that they pop in original order) — lists the children of each of its
entries as a subsequence: original sibling order is preserved within the
thread. -/
theorem claim_C6_sibling_order (entries : List Entry)
    (h2 : UuidsNodup entries) (hacyc : ∃ rk : Json → Nat, ParentRanked entries rk) :
    ∀ t ∈ get_conversations entries, ∀ e ∈ t,
      List.Sublist (childrenOf entries (buildUuidMap entries) e.uuid) t := by
  obtain ⟨rk, hr⟩ := hacyc
  intro t ht e he
  rw [get_conversations_eq] at ht
  obtain ⟨r, hrmem, hteq⟩ := List.mem_map.mp (List.mem_filter.mp ht).1
  have hre : r ∈ entries := (List.mem_filter.mp ((List.mem_filter.mp hrmem).1)).1
  obtain ⟨t0, hth, _, _, _, _, hblk⟩ := root_thread h2 hr r hre
  rw [hth] at hteq
  subst hteq
  exact hblk e he

/-- C2 (amended): for every session with distinct non-empty uuids, no
parent-link cycle, and all entries of User or Assistant kind, the
concatenation of the threads returned by `get_conversations` is a
permutation of the session's entries — every entry appears in exactly one
thread position. -/
theorem claim_C2_thread_coverage (entries : List Entry) (h1 : UuidsOk entries)
    (h2 : UuidsNodup entries) (hacyc : ∃ rk : Json → Nat, ParentRanked entries rk)
    (hua : ∀ e ∈ entries, isUserOrAssistant e = true) :
    ((get_conversations entries).flatten).Perm entries := by
  obtain ⟨rk, hr⟩ := hacyc
  have hthread : ∀ r ∈ (sessionRoots entries (buildUuidMap entries)).filter isUserOrAssistant,
      ∃ t, dfsThread (sessionChildren entries) entries.length [r] = t ∧
        SubtreeSpec (sessionChildren entries) r t := by
    intro r hrm
    exact root_thread h2 hr r (List.mem_filter.mp ((List.mem_filter.mp hrm).1)).1
  have hconv : get_conversations entries =
      ((sessionRoots entries (buildUuidMap entries)).filter isUserOrAssistant).map
        (fun r => dfsThread (sessionChildren entries) entries.length [r]) := by
    rw [get_conversations_eq]
    apply List.filter_eq_self.mpr
    intro t ht
    obtain ⟨r, hrm, hteq⟩ := List.mem_map.mp ht
    obtain ⟨t0, hth, _, ⟨rest, hhead⟩, _⟩ := hthread r hrm
    have hteq2 : t = t0 := by rw [← hteq, hth]
    rw [hteq2, hhead]
    rfl
  rw [hconv]
  have hnentries : entries.Nodup := List.Nodup.of_map _ h2
  have hrootsnd : ((sessionRoots entries (buildUuidMap entries)).filter
      isUserOrAssistant).Nodup := (hnentries.filter _).filter _
  have hflat_nodup : (((sessionRoots entries (buildUuidMap entries)).filter
      isUserOrAssistant).map
        (fun r => dfsThread (sessionChildren entries) entries.length [r])).flatten.Nodup := by
    rw [List.nodup_flatten]
    constructor
    · intro l hl
      obtain ⟨r, hrm, hteq⟩ := List.mem_map.mp hl
      obtain ⟨t0, hth, _, _, _, hnd, _⟩ := hthread r hrm
      have : l = t0 := by rw [← hteq, hth]
      rw [this]
      exact hnd
    · rw [List.pairwise_map]
      refine List.Pairwise.imp_of_mem ?_ hrootsnd
      intro r1 r2 hm1 hm2 hne
      obtain ⟨t1, ht1, _, _, hmem1, _, _⟩ := hthread r1 hm1
      obtain ⟨t2, ht2, _, _, hmem2, _, _⟩ := hthread r2 hm2
      rw [ht1, ht2]
      intro x hx1 hx2
      have hr1e : r1 ∈ entries := (List.mem_filter.mp ((List.mem_filter.mp hm1).1)).1
      have hr2e : r2 ∈ entries := (List.mem_filter.mp ((List.mem_filter.mp hm2).1)).1
      have hr1root : isRootEntry (buildUuidMap entries) r1 = true :=
        (List.mem_filter.mp ((List.mem_filter.mp hm1).1)).2
      have hr2root : isRootEntry (buildUuidMap entries) r2 = true :=
        (List.mem_filter.mp ((List.mem_filter.mp hm2).1)).2
      exact hne (root_unique h2 hr1e hr2e hr1root hr2root
        ((hmem1 x).mp hx1) ((hmem2 x).mp hx2))
  refine (List.perm_ext_iff_of_nodup hflat_nodup hnentries).mpr ?_
  intro x
  rw [List.mem_flatten]
  constructor
  · rintro ⟨l, hl, hx⟩
    obtain ⟨r, hrm, hteq⟩ := List.mem_map.mp hl
    obtain ⟨t0, hth, _, _, hmem0, _, _⟩ := hthread r hrm
    have : l = t0 := by rw [← hteq, hth]
    rw [this] at hx
    exact desc_mem ((hmem0 x).mp hx)
      (List.mem_filter.mp ((List.mem_filter.mp hrm).1)).1
  · intro hx
    obtain ⟨r, hre, hroot, hdesc⟩ := exists_root h1 h2 hr x hx
    have hrm : r ∈ (sessionRoots entries (buildUuidMap entries)).filter
        isUserOrAssistant :=
      List.mem_filter.mpr ⟨List.mem_filter.mpr ⟨hre, hroot⟩, hua r hre⟩
    obtain ⟨t0, hth, _, _, hmem0, _, _⟩ := hthread r hrm
    exact ⟨t0, List.mem_map.mpr ⟨r, hrm, hth⟩, (hmem0 x).mpr hdesc⟩

/-! ### C2/C6 concrete sessions -/

/-- User entry with uuid `a` and no parent (a thread root). -/
def c2xr1 : Json := mkObj [("type", .str "user"), ("uuid", .str "a"),
  ("message", mkObj [("role", .str "user"), ("content", .str "hello")])]

/-- System entry with uuid `b` whose parent is `a`. -/
def c2xr2 : Json := mkObj [("type", .str "system"), ("uuid", .str "b"),
  ("parentUuid", .str "a"), ("subtype", .str "info"), ("content", .str "note")]

/-- An acyclic session: a User root with a System child. -/
def c2xEntries : List Entry := [c2xr1, c2xr2].map (parse_entry 0 isoNone)

/-- C2 counterexample: the claim as stated is false.  On the acyclic
session of a User root with a System child (ranking exhibited, so there
is no parent-link cycle), the single reconstructed thread contains the
System entry: the DFS filters only the roots by kind and collects every
descendant, so it is not true that only User/Assistant entries appear in
threads, and the union of threads is not the set of User/Assistant
entries. -/
theorem claim_C2_counterexample :
    (∃ rk : Json → Nat, ParentRanked c2xEntries rk) ∧
    ((get_conversations c2xEntries).flatten.all isUserOrAssistant) = false :=
  ⟨⟨fun j => if j = Json.str "b" then 1 else 0, by unfold ParentRanked; decide⟩,
   by decide⟩

/-- Assistant entry with uuid `b` whose parent is `a`. -/
def c2wr2 : Json := mkObj [("type", .str "assistant"), ("uuid", .str "b"),
  ("parentUuid", .str "a"),
  ("message", mkObj [("role", .str "assistant"), ("content", mkArr [])])]

/-- A well-formed all-User/Assistant session. -/
def c2wEntries : List Entry := [c2xr1, c2wr2].map (parse_entry 0 isoNone)

theorem claim_C2_witness : ((get_conversations c2wEntries).flatten).Perm c2wEntries :=
  claim_C2_thread_coverage c2wEntries
    (by
      intro e he
      simp only [c2wEntries, List.map_cons, List.map_nil, List.mem_cons,
        List.not_mem_nil, or_false] at he
      rcases he with rfl | rfl
      · exact ⟨"a", by decide, by decide⟩
      · exact ⟨"b", by decide, by decide⟩)
    (by unfold UuidsNodup; decide)
    ⟨fun j => if j = Json.str "b" then 1 else 0, by unfold ParentRanked; decide⟩
    (by decide)

/-- User root entry with uuid `r`. -/
def c6wr0 : Json := mkObj [("type", .str "user"), ("uuid", .str "r"),
  ("message", mkObj [("role", .str "user"), ("content", .str "root")])]

/-- First child of `r`. -/
def c6wr1 : Json := mkObj [("type", .str "user"), ("uuid", .str "c1"),
  ("parentUuid", .str "r"),
  ("message", mkObj [("role", .str "user"), ("content", .str "one")])]

/-- Second child of `r`. -/
def c6wr2 : Json := mkObj [("type", .str "user"), ("uuid", .str "c2"),
  ("parentUuid", .str "r"),
  ("message", mkObj [("role", .str "user"), ("content", .str "two")])]

/-- A root with two children, in sequence order. -/
def c6wEntries : List Entry := [c6wr0, c6wr1, c6wr2].map (parse_entry 0 isoNone)

theorem claim_C6_witness :
    List.Sublist
      (childrenOf c6wEntries (buildUuidMap c6wEntries) (parse_entry 0 isoNone c6wr0).uuid)
      [parse_entry 0 isoNone c6wr0, parse_entry 0 isoNone c6wr1,
       parse_entry 0 isoNone c6wr2] :=
  claim_C6_sibling_order c6wEntries (by unfold UuidsNodup; decide)
    ⟨fun j => if j = Json.str "r" then 0 else 1, by unfold ParentRanked; decide⟩
    [parse_entry 0 isoNone c6wr0, parse_entry 0 isoNone c6wr1,
     parse_entry 0 isoNone c6wr2]
    (by decide)
    (parse_entry 0 isoNone c6wr0) (by decide)

end ClaudeHistory
